import Mathlib

/-! Art-card inventory: reconciliation and resumable sync.

A shallow embedding of the spreadsheet script `MAIN.js` (first unit of the
file, lines 1-428) and the properties of it that the specification states.

Modelling conventions.

* A sheet is the array that `getDataRange().getValues()` returns: a list of
  rows, row 0 being the header row.  A stored row that is shorter than the
  sheet is wide stands for the same row padded with empty cells, so a read
  past the stored end yields the empty string, exactly as `getValues` does.
  The two ledger sheets carry the twelve-column header row of
  `writeRegularSheet`, so they are never narrower than the columns the script
  reads; a ledger narrower than two columns is outside the model.
* A cell holds a string, a number, a boolean or a date, as the script reads
  and writes it.  The recalculation of formula cells (the "Total Value"
  column) is the spreadsheet's own and is not modelled.
* A number is a rational, as every finite double is.  The conversions from
  text (`parseInt`, `parseFloat`, `Number`) return the exact value of the
  text, which is what the script computes whenever that value is a double, as
  is every integer of at most 2 ^ 53 in magnitude; properties that depend on
  it are stated within that range.  The addition of doubles, which only the
  collection summary uses, is a parameter `add` of the model: nothing is
  assumed of it but, where exact sums are stated, that it is exact on natural
  numbers whose sum is at most 2 ^ 53.  The value `Infinity` and the exponent
  form that `Number.prototype.toString` uses for very large or very small
  magnitudes are outside the model.  A date is carried by its rendering and
  its time value in milliseconds.
* Strings are sequences of Unicode scalar values; `toLowerCase` folds the
  ASCII letters only.
* A key map (`regMap`, `signedMap`) is looked up only with keys that contain
  a hyphen, which no inherited property of a JavaScript object does.  The
  object `totalsBySet` is modelled by its own properties, in the order in
  which JavaScript enumerates them; reading it at a key that is the name of
  an inherited property (such as `constructor`) and of no own property yields
  the inherited value, which is truthy.
* The text finder of a sheet is a parameter of the model: a function from
  the sheet and the text sought to the row of the first match, if any.
-/

namespace ArtCardInventory

/-! ## JavaScript values -/

/-- A value read from or written to a spreadsheet cell.  `nan` is the number
`NaN`, which arises only as an intermediate result of `parseFloat`. -/
inductive Cell where
  | str (s : String)
  | num (q : ℚ)
  | nan
  | bool (b : Bool)
  | date (text : String) (time : ℚ)
  deriving DecidableEq

/-- Digits of the fractional part `r / d` (with `r < d`), most significant
first; the expansion stops when the remainder vanishes or the fuel runs out. -/
def fracDigits : Nat → Nat → Nat → List Char
  | 0, _, _ => []
  | fuel + 1, r, d =>
    if r = 0 then [] else Char.ofNat (48 + r * 10 / d) :: fracDigits fuel (r * 10 % d) d

/-- Model of `Number.prototype.toString` in plain decimal form. -/
def numToString (q : ℚ) : String :=
  if q.den = 1 then toString q.num
  else
    (if q.num < 0 then "-" else "") ++ toString (q.num.natAbs / q.den) ++ "." ++
      String.mk (fracDigits q.den (q.num.natAbs % q.den) q.den)

/-- The abstract operation `ToString`, used by `String(x)`, `x.toString()`
and by `+` with a string operand. -/
def toStr : Cell → String
  | .str s => s
  | .num q => numToString q
  | .nan => "NaN"
  | .bool true => "true"
  | .bool false => "false"
  | .date text _ => text

/-- The abstract operation `ToBoolean`: what `if (x)` and `!x` test. -/
def truthy : Cell → Bool
  | .str s => s != ""
  | .num q => q != 0
  | .nan => false
  | .bool b => b
  | .date _ _ => true

/-! ## String primitives -/

/-- Model of `WhiteSpace` and `LineTerminator` code points, the set that
`trim`, `parseInt`, `parseFloat` and the regular expression class `\s` use. -/
def isJsSpace (c : Char) : Bool :=
  let n := c.toNat
  n = 9 || n = 10 || n = 11 || n = 12 || n = 13 || n = 32 || n = 160 || n = 5760 ||
    (8192 ≤ n && n ≤ 8202) || n = 8232 || n = 8233 || n = 8239 || n = 8287 ||
    n = 12288 || n = 65279

/-- The regular expression class `\d`. -/
def isDigit (c : Char) : Bool := 48 ≤ c.toNat && c.toNat ≤ 57

/-- Value of a decimal digit character. -/
def digitVal (c : Char) : Nat := c.toNat - 48

/-- Lower-casing of one character (ASCII letters). -/
def lowerChar (c : Char) : Char :=
  if 65 ≤ c.toNat && c.toNat ≤ 90 then Char.ofNat (c.toNat + 32) else c

/-- Model of `String.prototype.toLowerCase`. -/
def toLowerCase (s : String) : String := String.mk (s.data.map lowerChar)

/-- Substring test on character lists. -/
def includesChars : List Char → List Char → Bool
  | [], t => t.isEmpty
  | c :: s, t => t.isPrefixOf (c :: s) || includesChars s t

/-- Model of `String.prototype.includes`. -/
def includes (s t : String) : Bool := includesChars s.data t.data

/-- Removal of the first occurrence of a character. -/
def dropFirstChar (x : Char) : List Char → List Char
  | [] => []
  | c :: s => if c = x then s else c :: dropFirstChar x s

/-- Model of `s.replace("$", "")`: only the first dollar sign goes. -/
def replaceDollar (s : String) : String := String.mk (dropFirstChar '$' s.data)

/-- Model of `String.prototype.trim`. -/
def trim (s : String) : String :=
  String.mk ((s.data.dropWhile isJsSpace).reverse.dropWhile isJsSpace).reverse

/-! ## Header resolution (`findIndex`, lines 284-307) -/

/-- The synonym table `headerMap`. -/
structure HeaderMap where
  code : List String
  number : List String
  signature : List String
  price : List String
  quantity : List String

/-- The table as the source spells it. -/
def headerMap : HeaderMap where
  code := ["Code", "Set Code", "Set", "Code Abbr"]
  number := ["Number", "Collector Number", "#"]
  signature := ["Signature", "Signed", "Gold-Stamped Signature"]
  price := ["Market Price", "Price", "TCG Market Price"]
  quantity := ["Quantity", "Qty", "Count", "Amount"]

/-- The test inside `synonyms.some(...)` for one header cell. -/
def headerMatches (synonyms : List String) (cell : String) : Bool :=
  synonyms.any fun name => includes (toLowerCase cell) (toLowerCase name)

/-- The `for` loop of `findIndex`, entered at index `i` with the header cells
from `i` on still to inspect. -/
def findIndexLoop (synonyms : List String) : List String → Nat → Int
  | [], _ => -1
  | cell :: rest, i =>
    if headerMatches synonyms cell then (i : Int) else findIndexLoop synonyms rest (i + 1)

/-- The helper `findIndex(synonyms)` over the captured `header`. -/
def findIndex (header : List String) (synonyms : List String) : Int :=
  findIndexLoop synonyms header 0

/-! ## Number parsing -/

/-- Value of a run of decimal digits, read left to right. -/
def digitsValue (ds : List Char) : Nat := ds.foldl (fun acc c => acc * 10 + digitVal c) 0

/-- Value of a hexadecimal digit, when the character is one. -/
def hexVal (c : Char) : Option Nat :=
  if isDigit c then some (c.toNat - 48)
  else if 97 ≤ c.toNat && c.toNat ≤ 102 then some (c.toNat - 87)
  else if 65 ≤ c.toNat && c.toNat ≤ 70 then some (c.toNat - 55)
  else none

/-- Value of a run of hexadecimal digits, read left to right. -/
def hexValue (ds : List Char) : Nat := ds.foldl (fun acc c => acc * 16 + (hexVal c).getD 0) 0

/-- A number with an optional sign applied. -/
def applySign (neg : Bool) (n : Nat) : Int := if neg then -(n : Int) else (n : Int)

/-- Splits an optional leading sign from the text: whether it is a minus,
and what follows. -/
def takeSign : List Char → Bool × List Char
  | '-' :: s => (true, s)
  | '+' :: s => (false, s)
  | s => (false, s)

/-- Model of `parseInt(s, 10)`: leading white space, a sign, then the longest
run of decimal digits; `NaN` when there is no digit.  The value is the exact
value of the digits, which is what the code returns for digit runs valued up
to 2 ^ 53; beyond that the code returns the nearest double, which this
definition does not describe, and results about it are stated within the
bound. -/
def parseInt10 (s : String) : Cell :=
  let (neg, body) := takeSign (s.data.dropWhile isJsSpace)
  let ds := body.takeWhile isDigit
  if ds.isEmpty then .nan else .num (applySign neg (digitsValue ds))

/-- Model of `parseInt(s)` without radix: as `parseInt10`, except that a
`0x` or `0X` prefix selects base 16. -/
def parseIntStr (s : String) : Cell :=
  let (neg, body) := takeSign (s.data.dropWhile isJsSpace)
  match body with
  | '0' :: 'x' :: hex | '0' :: 'X' :: hex =>
    let hs := hex.takeWhile fun c => (hexVal c).isSome
    if hs.isEmpty then .nan else .num (applySign neg (hexValue hs))
  | _ =>
    let ds := body.takeWhile isDigit
    if ds.isEmpty then .nan else .num (applySign neg (digitsValue ds))

/-- The call `parseInt(x)` on a cell value: the argument is first converted
with `ToString`. -/
def parseInt (x : Cell) : Cell := parseIntStr (toStr x)

/-- The exponent part of a decimal literal, when one follows: its sign, its
value.  An `e` that is not followed by digits is not part of the number. -/
def takeExponent : List Char → Bool × Nat
  | c :: s =>
    if c = 'e' || c = 'E' then
      let (neg, body) := takeSign s
      let ds := body.takeWhile isDigit
      if ds.isEmpty then (false, 0) else (neg, digitsValue ds)
    else (false, 0)
  | [] => (false, 0)

/-- Model of `parseFloat(s)`: leading white space, a sign, then the longest
prefix that is a decimal literal (digits, an optional fraction, an optional
exponent); `NaN` when the mantissa has no digit.  The result is exact. -/
def parseFloat (s : String) : Cell :=
  let (neg, body) := takeSign (s.data.dropWhile isJsSpace)
  let ip := body.takeWhile isDigit
  let rest := body.dropWhile isDigit
  let fp := match rest with
    | '.' :: t => t.takeWhile isDigit
    | _ => []
  let tail := match rest with
    | '.' :: t => t.dropWhile isDigit
    | t => t
  if ip.isEmpty && fp.isEmpty then .nan
  else
    let (eneg, e) := takeExponent tail
    let m := applySign neg (digitsValue (ip ++ fp))
    if eneg then .num (mkRat m (10 ^ (fp.length + e)))
    else .num (mkRat (m * 10 ^ e) (10 ^ fp.length))

/-- The expression `a || b`. -/
def jsOr (a b : Cell) : Cell := if truthy a then a else b

/-! ## Free-text import parser (loop body of `parsePriceListToInventory`,
lines 228-238) -/

/-- The filter `l.includes("Art Card")` that keeps candidate lines. -/
def isCandidate (line : String) : Bool := includes line "Art Card"

/-- The match of `/^(\d+)/`: the leading run of digits, when not empty. -/
def quantityMatch (line : String) : Option String :=
  let ds := line.data.takeWhile isDigit
  if ds.isEmpty then none else some (String.mk ds)

/-- What `.` matches: any character but a line terminator. -/
def isDot (c : Char) : Bool :=
  !(c.toNat = 10 || c.toNat = 13 || c.toNat = 8232 || c.toNat = 8233)

/-- The lazy group `(.+?)` followed by `\sArt Card`: `acc` holds the
characters taken so far (at least one), and the group grows one character at a
time until a white-space character and the marker follow. -/
def lazyName : List Char → List Char → Option (List Char)
  | _, [] => none
  | acc, c :: rest =>
    if isJsSpace c && "Art Card".data.isPrefixOf rest then some acc
    else if isDot c then lazyName (acc ++ [c]) rest
    else none

/-- The match of `/^\d+\s(.+?)\sArt Card/`: capture group 1. -/
def nameMatch (line : String) : Option String :=
  let ds := line.data.takeWhile isDigit
  match line.data.dropWhile isDigit with
  | sp :: c :: rest =>
    if !ds.isEmpty && isJsSpace sp && isDot c then (lazyName [c] rest).map String.mk else none
  | _ => none

/-- The class `[\d.]`. -/
def isPriceChar (c : Char) : Bool := isDigit c || c = '.'

/-- The match of `/\$([\d.]+)/` on the characters of a line: capture group 1
of the leftmost dollar sign that a digit or a dot follows. -/
def priceMatchChars : List Char → Option (List Char)
  | [] => none
  | c :: s =>
    if c = '$' && !(s.takeWhile isPriceChar).isEmpty then some (s.takeWhile isPriceChar)
    else priceMatchChars s

/-- The match of `/\$([\d.]+)/`. -/
def priceMatch (line : String) : Option String := (priceMatchChars line.data).map String.mk

/-- One record extracted from a candidate line. -/
structure ImportRecord where
  quantity : Cell
  cardName : String
  price : Cell
  isGoldStamped : Bool
  deriving DecidableEq

/-- The extraction at the head of the loop over candidate lines. -/
def parseLine (line : String) : ImportRecord where
  quantity := match quantityMatch line with
    | some m => parseInt10 m
    | none => .num 1
  cardName := match nameMatch line with
    | some m => m
    | none => ""
  price := match priceMatch line with
    | some m => parseFloat m
    | none => .str ""
  isGoldStamped := includes line "Gold-Stamped"

/-- The header row that `parsePriceListToInventory` appends to the cleared
"Inventory Import" sheet (line 218). -/
def stagingHeader : List Cell :=
  [.str "Set", .str "Collector Number", .str "Quantity", .str "Price"]

/-! ## Sheets -/

/-- One row of `getValues()`. -/
abbrev Row := List Cell

/-- The rows of a sheet, header row first. -/
abbrev Sheet := List Row

/-- The read `row[j]`; cells past the stored end are empty. -/
def cellAt (row : Row) (j : Nat) : Cell := row.getD j (.str "")

/-- The row `data[i]` (0-based), empty when the sheet has no such row. -/
def rowAt (sh : Sheet) (i : Nat) : Row := sh.getD i []

/-- A row with cell `j` (0-based) replaced; the row is widened with empty
cells when it was stored shorter. -/
def setRow (row : Row) (j : Nat) (v : Cell) : Row :=
  (List.range (max row.length (j + 1))).map fun k => if k = j then v else cellAt row k

/-- Model of `sheet.getRange(r, c).setValue(v)`, with the 1-based row and
column numbers of the call.  A row or column number 0, for which `getRange`
throws, leaves the sheet as it is; the script never passes one. -/
def setValue (sh : Sheet) (r c : Nat) (v : Cell) : Sheet :=
  if r = 0 ∨ c = 0 then sh
  else (List.range (max sh.length r)).map fun i =>
    if i + 1 = r then setRow (rowAt sh i) (c - 1) v else rowAt sh i

/-- The sheets of the spreadsheet that the script looks up by name; `none`
is a sheet that does not exist. -/
structure Spreadsheet where
  rawImport : Option Sheet
  inventoryImport : Option Sheet
  regular : Option Sheet
  signed : Option Sheet
  summary : Option Sheet
  deriving DecidableEq

/-! ## Structured reconciliation (`updateQuantitiesFromImport`, lines 267-362) -/

/-- How a run of `updateQuantitiesFromImport` ends: one of the four alerts
that precede an early `return`, or the final alert with `updatedCount`. -/
inductive Outcome where
  | noImportSheet
  | noData
  | missingColumns
  | missingLedger
  | updated (updatedCount : Nat)
  deriving DecidableEq

/-- Whether the run stopped at one of the early returns. -/
def Outcome.aborted : Outcome → Bool
  | .updated _ => false
  | _ => true

/-- The five resolved column indices. -/
structure Columns where
  codeIdx : Int
  numIdx : Int
  sigIdx : Int
  priceIdx : Int
  qtyIdx : Int
  deriving DecidableEq

/-- The five calls of `findIndex` (lines 303-307). -/
def resolveColumns (header : List String) : Columns where
  codeIdx := findIndex header headerMap.code
  numIdx := findIndex header headerMap.number
  sigIdx := findIndex header headerMap.signature
  priceIdx := findIndex header headerMap.price
  qtyIdx := findIndex header headerMap.quantity

/-- The validation of line 310. -/
def Columns.missingRequired (ix : Columns) : Bool :=
  ix.codeIdx = -1 || ix.numIdx = -1 || ix.sigIdx = -1 || ix.priceIdx = -1

/-- The key `row[0] + "-" + row[1]` of a ledger row. -/
def rowKey (row : Row) : String := toStr (cellAt row 0) ++ "-" ++ toStr (cellAt row 1)

/-- The loop that fills `regMap` and `signedMap`: `rows` are the rows from
index `i` on, and an assignment `map[key] = i + 1` puts its entry in front of
the older ones, so that a lookup sees the latest assignment. -/
def buildMapLoop : List Row → Nat → List (String × Nat) → List (String × Nat)
  | [], _, m => m
  | row :: rest, i, m => buildMapLoop rest (i + 1) ((rowKey row, i + 1) :: m)

/-- The key map of a ledger: sheet row number by key, header row skipped. -/
def buildMap (data : Sheet) : List (String × Nat) := buildMapLoop data.tail 1 []

/-- The two ledgers while the import rows are processed, and the counter. -/
structure LedgerState where
  regular : Sheet
  signed : Sheet
  updatedCount : Nat
  deriving DecidableEq

/-- The variable `setCode`. -/
def setCodeOf (ix : Columns) (row : Row) : Cell := cellAt row ix.codeIdx.toNat

/-- The variable `number`. -/
def numberOf (ix : Columns) (row : Row) : Cell := cellAt row ix.numIdx.toNat

/-- The variable `signed`. -/
def signedOf (ix : Columns) (row : Row) : Bool :=
  cellAt row ix.sigIdx.toNat == .str "S" ||
    includes (toLowerCase (toStr (cellAt row ix.sigIdx.toNat))) "gold"

/-- The variable `price`. -/
def priceOf (ix : Columns) (row : Row) : Cell :=
  jsOr (parseFloat (trim (replaceDollar (toStr (cellAt row ix.priceIdx.toNat))))) (.num 0)

/-- The variable `qty`. -/
def qtyOf (ix : Columns) (row : Row) : Cell :=
  if ix.qtyIdx ≠ -1 then jsOr (parseInt (cellAt row ix.qtyIdx.toNat)) (.num 0) else .num 0

/-- The variable `key`. -/
def keyOf (ix : Columns) (row : Row) : String :=
  toStr (setCodeOf ix row) ++ "-" ++ toStr (numberOf ix row)

/-- The two guarded writes `if (price) ...setValue(price)` into column 5 and
`if (qty) ...setValue(qty)` into column 10 of sheet row `r`. -/
def applyUpdate (sh : Sheet) (r : Nat) (price qty : Cell) : Sheet :=
  let sh1 := if truthy price then setValue sh r 5 price else sh
  if truthy qty then setValue sh1 r 10 qty else sh1

/-- The callback of `data.forEach` (lines 340-359). -/
def processRow (ix : Columns) (regMap signedMap : List (String × Nat))
    (st : LedgerState) (row : Row) : LedgerState :=
  if !truthy (setCodeOf ix row) || !truthy (numberOf ix row) then st
  else if signedOf ix row then
    match signedMap.lookup (keyOf ix row) with
    | some r =>
      { st with
        signed := applyUpdate st.signed r (priceOf ix row) (qtyOf ix row)
        updatedCount := st.updatedCount + 1 }
    | none => st
  else
    match regMap.lookup (keyOf ix row) with
    | some r =>
      { st with
        regular := applyUpdate st.regular r (priceOf ix row) (qtyOf ix row)
        updatedCount := st.updatedCount + 1 }
    | none => st

/-- The function `updateQuantitiesFromImport`: the spreadsheet it leaves and
the alert it ends with. -/
def updateQuantitiesFromImport (ss : Spreadsheet) : Spreadsheet × Outcome :=
  match ss.inventoryImport with
  | none => (ss, .noImportSheet)
  | some data =>
    if data.length ≤ 1 then (ss, .noData)
    else
      let header := (data.headD []).map toStr
      let ix := resolveColumns header
      if ix.missingRequired then (ss, .missingColumns)
      else
        match ss.regular, ss.signed with
        | some regData, some signedData =>
          let st := data.tail.foldl (processRow ix (buildMap regData) (buildMap signedData))
            ⟨regData, signedData, 0⟩
          ({ ss with regular := some st.regular, signed := some st.signed },
            .updated st.updatedCount)
        | _, _ => (ss, .missingLedger)

/-! ## Batch price refresh (`updatePricesInBatches`, lines 142-175) -/

/-- The constant `BATCH_SIZE`. -/
def BATCH_SIZE : Nat := 200

/-- What `fetchPriceFromScryfall` returns. -/
structure Prices where
  low : Cell
  avg : Cell
  market : Cell

/-- The persisted script property `currentIndex` (`none` when it is not
set: the Idle state) and the "Regular Art Cards" sheet.  The property holds
the decimal rendering of a natural number, which `parseInt` reads back. -/
structure BatchState where
  currentIndex : Option Nat
  regular : Option Sheet

/-- The `for` loop over `ids` (lines 159-167), entered at index `i` with the
ids from `i` on still to process: row `startRow + i` receives the three prices
fetched for `ids[i]`.  The last argument and the second component of the
result list the rows refreshed so far, in order. -/
def refreshLoop (fetch : Cell → Prices) (startRow : Nat) :
    List Cell → Nat → Sheet → List Nat → Sheet × List Nat
  | [], _, sh, done => (sh, done)
  | cardID :: rest, i, sh, done =>
    let prices := fetch cardID
    let row := startRow + i
    let sh1 := setValue sh row 7 prices.low
    let sh2 := setValue sh1 row 8 prices.avg
    let sh3 := setValue sh2 row 9 prices.market
    refreshLoop fetch startRow rest (i + 1) sh3 (done ++ [row])

/-- The result of one invocation of `updatePricesInBatches`: the state it
leaves, the sheet rows it refreshed, and whether it went on to call
`updateCollectionSummary`. -/
structure BatchRun where
  state : BatchState
  refreshed : List Nat
  summary : Bool

/-- One invocation of `updatePricesInBatches`.  The pricing service is the
parameter `fetch`.  The result is `none` when `getRange` is asked for a range
with no rows, which makes the call throw. -/
def updatePricesInBatches (fetch : Cell → Prices) (st : BatchState) : Option BatchRun :=
  let index := st.currentIndex.getD 0
  match st.regular with
  | none => some ⟨st, [], false⟩
  | some sheet =>
    let lastRow := sheet.length
    if lastRow < 2 then some ⟨st, [], false⟩
    else
      let startRow := 2 + index
      let endRow := min (startRow + BATCH_SIZE - 1) lastRow
      if endRow + 1 ≤ startRow then none
      else
        let ids := (List.range (endRow + 1 - startRow)).map fun i =>
          cellAt (rowAt sheet (startRow + i - 1)) 11
        let out := refreshLoop fetch startRow ids 0 sheet []
        if endRow < lastRow then
          some ⟨⟨some (index + BATCH_SIZE), some out.1⟩, out.2, false⟩
        else
          some ⟨⟨none, some out.1⟩, out.2, true⟩

/-- Sequential invocations, `n` of them: the final state and the rows
refreshed by all of them, in order. -/
def runBatches (fetch : Cell → Prices) : Nat → BatchState → Option (BatchState × List Nat)
  | 0, st => some (st, [])
  | n + 1, st =>
    match updatePricesInBatches fetch st with
    | none => none
    | some run =>
      match runBatches fetch n run.state with
      | none => none
      | some (st2, rows) => some (st2, run.refreshed ++ rows)

/-- The ledger header row that `writeRegularSheet` appends (lines 76-80). -/
def ledgerHeader : Row :=
  [.str "Set", .str "Collector Number", .str "Card Name", .str "Artist", .str "Release Date",
    .str "Signed/Regular", .str "Low Price", .str "Average Price", .str "Market Price",
    .str "Quantity Owned", .str "Total Value", .str "Scryfall ID"]

/-- The 0-based position of a column title in the ledger header. -/
def ledgerColumn (title : String) : Nat := ledgerHeader.indexOf (.str title)

/-! ## Specification-side notions -/

/-- In the words of the specification: the lowercase form of the header cell
contains, as a substring, the lowercase form of at least one synonym. -/
def MatchesSynonym (synonyms : List String) (cell : String) : Prop :=
  ∃ name ∈ synonyms, (toLowerCase name).data <:+: (toLowerCase cell).data

/-- Whether the line starts with a digit. -/
def startsWithDigit (line : String) : Bool := line.data.head?.any isDigit

/-- The leading run of digits of a line. -/
def leadingDigits (line : String) : List Char := line.data.takeWhile isDigit

/-- The number that a run of decimal digits denotes. -/
def decimalValue (ds : List Char) : Nat := Nat.ofDigits 10 (ds.map digitVal).reverse

/-! ## The writes of a run -/

/-- One call `getRange(r, c).setValue(v)`: row, column, value. -/
abbrev Write := Nat × Nat × Cell

/-- A sequence of writes carried out on a sheet, first to last. -/
def applyWrites (sh : Sheet) (ws : List Write) : Sheet :=
  ws.foldl (fun s w => setValue s w.1 w.2.1 w.2.2) sh

/-- The writes of `applyUpdate`. -/
def recordWrites (r : Nat) (price qty : Cell) : List Write :=
  (if truthy price then [(r, 5, price)] else []) ++ (if truthy qty then [(r, 10, qty)] else [])

/-- Whether an import row passes the guard `if (!setCode || !number) return`. -/
def hasKey (ix : Columns) (row : Row) : Bool :=
  truthy (setCodeOf ix row) && truthy (numberOf ix row)

/-- The writes that one import row causes on the ledger whose key map is
`map`; `forSigned` tells which ledger that is. -/
def ledgerWrites (ix : Columns) (forSigned : Bool) (map : List (String × Nat)) (row : Row) :
    List Write :=
  if hasKey ix row && (signedOf ix row == forSigned) then
    match map.lookup (keyOf ix row) with
    | some r => recordWrites r (priceOf ix row) (qtyOf ix row)
    | none => []
  else []

/-- What one import row adds to `updatedCount`. -/
def countOf (ix : Columns) (regMap signedMap : List (String × Nat)) (row : Row) : Nat :=
  if hasKey ix row then
    if signedOf ix row then (if (signedMap.lookup (keyOf ix row)).isSome then 1 else 0)
    else (if (regMap.lookup (keyOf ix row)).isSome then 1 else 0)
  else 0

/-- The keys of the rows of a ledger, header row included. -/
def ledgerKeys (sh : Sheet) : List String := sh.map rowKey

/-- The writes of a run go to existing data rows and to columns 5 and 10. -/
def WritesWithin (n : Nat) (ws : List Write) : Prop :=
  ∀ w ∈ ws, 2 ≤ w.1 ∧ w.1 ≤ n ∧ (w.2.1 = 5 ∨ w.2.1 = 10)

/-- The column indices that `updateQuantitiesFromImport` resolves for the
header row of an import table. -/
def importColumns (data : Sheet) : Columns := resolveColumns ((data.headD []).map toStr)

/-! ## The structured example of the specification -/

/-- An import table with the columns code, number, signature, price, quantity
and the single row of the example. -/
def specImport : Sheet :=
  [[.str "code", .str "number", .str "signature", .str "price", .str "quantity"],
   [.str "NEO", .str "42", .str "", .str "$4.00", .str "2"]]

/-- An Unsigned ledger whose only data row is keyed NEO-42, with prices 0
and quantity 0. -/
def specRegular : Sheet :=
  [ledgerHeader,
   [.str "NEO", .num 42, .str "Some Card", .str "An Artist", .str "2022-02-18", .str "Regular",
    .num 0, .num 0, .num 0, .num 0, .num 0, .str "id-1"]]

/-- The parallel Signed ledger, as `duplicateToSignedSheetNoPricing` lays it
out: price and total cells blank. -/
def specSigned : Sheet :=
  [ledgerHeader,
   [.str "NEO", .num 42, .str "Some Card", .str "An Artist", .str "2022-02-18", .str "Signed",
    .str "", .str "", .str "", .num 0, .str "", .str "id-1"]]

/-- The spreadsheet of the example. -/
def specSpreadsheet : Spreadsheet := ⟨none, some specImport, some specRegular, some specSigned, none⟩

/-- The import table of the example without its quantity column. -/
def specImportNoQty : Sheet :=
  [[.str "code", .str "number", .str "signature", .str "price"],
   [.str "NEO", .str "42", .str "", .str "$4.00"]]

/-- A catalog sheet of 201 data rows under the ledger header. -/
def catalog201 : Sheet :=
  ledgerHeader :: List.replicate 201
    [.str "NEO", .num 42, .str "Some Card", .str "An Artist", .str "2022-02-18", .str "Regular",
      .num 0, .num 0, .num 0, .num 0, .num 0, .str "id-1"]

/-- A pricing service that answers 1 for every id. -/
def constantFetch : Cell → Prices := fun _ => ⟨.num 1, .num 1, .num 1⟩

/-- The import row of the example with its price field blank. -/
def specRowBlankPrice : Row := [.str "NEO", .str "42", .str "", .str "", .str "2"]

/-- An import row whose key is in neither ledger. -/
def specRowUnknownKey : Row := [.str "XYZ", .str "7", .str "", .str "$1.00", .str "1"]

/-- The ledgers of the example before any import row is processed. -/
def specLedgers : LedgerState := ⟨specRegular, specSigned, 0⟩

/-! ## Free-text reconciliation (`parsePriceListToInventory`, lines 196-262) -/

/-- Model of `text.split("\n")` on the characters of the text. -/
def splitLines : List Char → List (List Char)
  | [] => [[]]
  | c :: s =>
    if c = '\n' then [] :: splitLines s
    else
      match splitLines s with
      | l :: ls => (c :: l) :: ls
      | [] => [[c]]

/-- The text `rawSheet.getDataRange().getValues().flat().join("\n")`. -/
def rawText (raw : Sheet) : String := String.intercalate "\n" (raw.flatten.map toStr)

/-- The candidate lines: `rawText.split("\n").filter(l => l.includes("Art Card"))`. -/
def candidateLines (raw : Sheet) : List String :=
  ((splitLines (rawText raw).data).map String.mk).filter isCandidate

/-- The service `sheet.createTextFinder(text).findNext()` followed by
`getRow()`: the 1-based row of the first match, `none` when nothing matches. -/
abbrev TextFinder := Sheet → String → Option Nat

/-- A text finder that matches, as the default options of the service do, any
cell whose text contains the text sought, letter case ignored, rows scanned
top to bottom.  The text of a cell is taken to be `toStr` of its value. -/
def textFinderRow : TextFinder := fun sh text =>
  let i := sh.findIdx fun row => row.any fun c => includes (toLowerCase (toStr c)) (toLowerCase text)
  if i < sh.length then some (i + 1) else none

/-- The two sheets that the loop over the candidate lines writes: the
"Inventory Import" staging sheet and, when it exists, "Signed Art Cards". -/
structure StagingState where
  importSheet : Sheet
  signed : Option Sheet
  deriving DecidableEq

/-- The lookup `regularData.find(row => row[2] === cardName)`. -/
def findCardRow (regularData : Sheet) (cardName : String) : Option Row :=
  regularData.find? fun row => cellAt row 2 == .str cardName

/-- The staging row `[setCode, cardNumber, quantity, price]` of a record that
matched `cardRow`. -/
def stagingRow (cardRow : Row) (record : ImportRecord) : Row :=
  [cellAt cardRow 0, cellAt cardRow 1, record.quantity, record.price]

/-- The body of the loop `for (let line of lines)` (lines 228-259). -/
def processLine (find : TextFinder) (regularData : Sheet) (st : StagingState)
    (line : String) : StagingState :=
  let record := parseLine line
  match findCardRow regularData record.cardName with
  | none => st
  | some cardRow =>
    if record.isGoldStamped then
      match st.signed with
      | some signedSheet =>
        match find signedSheet record.cardName with
        | some r => { st with signed := some (setValue signedSheet r 10 record.quantity) }
        | none => st
      | none => st
    else
      { st with importSheet := st.importSheet ++ [stagingRow cardRow record] }

/-- How a run of `parsePriceListToInventory` ends: the alert after creating
"Raw Import", the alert for a missing "Regular Art Cards", or the final one. -/
inductive ParseOutcome where
  | createdRawImport
  | missingRegular
  | processed
  deriving DecidableEq

/-- The function `parsePriceListToInventory`: the spreadsheet it leaves and
the alert it ends with. -/
def parsePriceListToInventory (find : TextFinder) (ss : Spreadsheet) :
    Spreadsheet × ParseOutcome :=
  match ss.rawImport with
  | none =>
    ({ ss with rawImport := some [[.str "Paste your price list here"]] }, .createdRawImport)
  | some rawSheet =>
    let lines := candidateLines rawSheet
    let importSheet : Sheet := [stagingHeader]
    match ss.regular with
    | none => ({ ss with inventoryImport := some importSheet }, .missingRegular)
    | some regularData =>
      let st := lines.foldl (processLine find regularData) ⟨importSheet, ss.signed⟩
      ({ ss with inventoryImport := some st.importSheet, signed := st.signed }, .processed)

/-- A pasted price list: one signed and one unsigned copy of the card of the
example ledgers, a card that the catalog does not hold, and a line of noise. -/
def specRawImport : Sheet :=
  [[.str "3 Some Card Art Card — Gold-Stamped Signature $12.50"],
   [.str "2 Some Card Art Card $4.00\n1 Other Card Art Card $1.00"],
   [.str "Shipping $3.99"]]

/-! ## Collection summary (`updateCollectionSummary`, lines 367-406) -/

/-- Whether the character is a digit of the given base. -/
def isRadixDigit (base : Nat) (c : Char) : Bool :=
  match hexVal c with
  | some v => v < base
  | none => false

/-- Value of a run of digits of the given base, read left to right. -/
def radixValue (base : Nat) (ds : List Char) : Nat :=
  ds.foldl (fun acc c => acc * base + (hexVal c).getD 0) 0

/-- The digits of a literal with a `0x`, `0o` or `0b` prefix: its value, or
`NaN` when a digit is missing or foreign to the base. -/
def nonDecimal (base : Nat) (ds : List Char) : Cell :=
  if !ds.isEmpty && ds.all (isRadixDigit base) then .num (radixValue base ds) else .nan

/-- What is left of the text after an exponent part, when one stands at its
head; the text itself otherwise. -/
def dropExponent : List Char → List Char
  | c :: s =>
    if c = 'e' || c = 'E' then
      let (_, body) := takeSign s
      if (body.takeWhile isDigit).isEmpty then c :: s else body.dropWhile isDigit
    else c :: s
  | [] => []

/-- Model of `Number(s)` for a string: white space is trimmed, the empty
string is 0, and the text must be a numeric literal as a whole.  A literal is
converted without rounding, and the texts `Infinity`, `+Infinity` and
`-Infinity`, which the script converts to an infinite number, read as `NaN`:
the definition agrees with the script on the texts whose value is a double,
and the properties of the summary are stated for cells that read as such. -/
def stringToNumber (s : String) : Cell :=
  match (trim s).data with
  | [] => .num 0
  | '0' :: 'x' :: ds | '0' :: 'X' :: ds => nonDecimal 16 ds
  | '0' :: 'o' :: ds | '0' :: 'O' :: ds => nonDecimal 8 ds
  | '0' :: 'b' :: ds | '0' :: 'B' :: ds => nonDecimal 2 ds
  | t =>
    let rest := (takeSign t).2.dropWhile isDigit
    let tail := match rest with
      | '.' :: u => u.dropWhile isDigit
      | u => u
    if (dropExponent tail).isEmpty then parseFloat (String.mk t) else .nan

/-- Model of `Number(x)` on a cell value. -/
def toNumber : Cell → Cell
  | .str s => stringToNumber s
  | .num q => .num q
  | .nan => .nan
  | .bool b => .num (if b then 1 else 0)
  | .date _ time => .num time

/-- The expression `Number(x) || 0`, which is always a number. -/
def numberOrZero (x : Cell) : ℚ :=
  match jsOr (toNumber x) (.num 0) with
  | .num q => q
  | _ => 0

/-- One object of the array that `getData` returns. -/
structure LedgerEntry where
  set : Cell
  signed : Bool
  quantity : ℚ
  totalValue : ℚ
  deriving DecidableEq

/-- The helper `getData(sheet)`: the header row is shifted off and each
remaining row is read at columns 1, 6, 10 and 11. -/
def getData (sheet : Sheet) : List LedgerEntry :=
  sheet.tail.map fun row =>
    { set := cellAt row 0
      signed := cellAt row 5 == .str "Signed"
      quantity := numberOrZero (cellAt row 9)
      totalValue := numberOrZero (cellAt row 10) }

/-- One value of `totalsBySet`. -/
structure Totals where
  quantity : ℚ
  value : ℚ
  deriving DecidableEq

/-- The own properties of the object `totalsBySet`, in the order of their
creation; the key of a property is the string that `row.set` converts to. -/
abbrev TotalsBySet := List (String × Totals)

/-- The names of the properties that the object literal `{}` inherits from
`Object.prototype`.  Each of them reads as a function or an object, hence as
truthy, on an object that has no own property of that name. -/
def inheritedNames : List String :=
  ["constructor", "toString", "toLocaleString", "valueOf", "hasOwnProperty",
    "isPrototypeOf", "propertyIsEnumerable", "__proto__", "__defineGetter__",
    "__defineSetter__", "__lookupGetter__", "__lookupSetter__"]

/-- The callback of `allData.forEach` (lines 392-396): a group not yet in
the object is created with zero totals, then the row is added to its group.
The parameter `add` is the addition `+` of two doubles, of which nothing is
assumed here.  For a key that is an inherited name and not an own property,
`totalsBySet[row.set]` is the inherited value: the test `!totalsBySet[row.set]`
fails, no property is created, and the two `+=` write to the inherited value,
so that the own properties of `totalsBySet` stay as they are. -/
def addToTotals (add : ℚ → ℚ → ℚ) (totalsBySet : TotalsBySet) (row : LedgerEntry) :
    TotalsBySet :=
  let key := toStr row.set
  if (totalsBySet.lookup key).isNone && inheritedNames.contains key then totalsBySet
  else
    let created :=
      if (totalsBySet.lookup key).isNone then totalsBySet ++ [(key, ⟨0, 0⟩)] else totalsBySet
    created.map fun e =>
      if e.1 = key then
        (e.1, ⟨add e.2.quantity row.quantity,
          if row.signed then e.2.value else add e.2.value row.totalValue⟩)
      else e

/-- Whether a property key is an array index: the canonical decimal form of
an integer from 0 to 4294967294. -/
def isArrayIndex (key : String) : Bool :=
  !key.data.isEmpty && key.data.all isDigit &&
    (key.data.length = 1 || key.data.head? != some '0') &&
    digitsValue key.data ≤ 4294967294

/-- The integer that an array-index key denotes. -/
def indexValue (key : String) : Nat := digitsValue key.data

/-- Model of `Object.entries` (and of `Object.values`, which follows the same
order): the properties whose key is an array index come first, in ascending
numeric order, then the other properties in the order of their creation. -/
def objectEntries (obj : TotalsBySet) : TotalsBySet :=
  (obj.filter fun e => isArrayIndex e.1).insertionSort
      (fun a b => indexValue a.1 ≤ indexValue b.1) ++
    obj.filter fun e => !isArrayIndex e.1

/-- The object `totalsBySet` after the loop over `allData`. -/
def totalsBySetOf (add : ℚ → ℚ → ℚ) (regular signed : Sheet) : TotalsBySet :=
  (getData regular ++ getData signed).foldl (addToTotals add) []

/-- The constant `totalQuantity`: the group totals are added up with `+`,
from 0, in the order of `Object.values`. -/
def totalQuantity (add : ℚ → ℚ → ℚ) (obj : TotalsBySet) : ℚ :=
  (objectEntries obj).foldl (fun sum t => add sum t.2.quantity) 0

/-- The constant `totalValue`. -/
def totalValue (add : ℚ → ℚ → ℚ) (obj : TotalsBySet) : ℚ :=
  (objectEntries obj).foldl (fun sum t => add sum t.2.value) 0

/-- The header row of the summary sheet. -/
def summaryHeader : Row :=
  [.str "Set", .str "Total Quantity Owned", .str "Total Market Value"]

/-- The row appended for one group. -/
def groupRow (e : String × Totals) : Row := [.str e.1, .num e.2.quantity, .num e.2.value]

/-- The last row appended. -/
def grandTotalRow (add : ℚ → ℚ → ℚ) (obj : TotalsBySet) : Row :=
  [.str "Grand Total", .num (totalQuantity add obj), .num (totalValue add obj)]

/-- The rows that `updateCollectionSummary` appends to the emptied summary
sheet. -/
def summaryRows (add : ℚ → ℚ → ℚ) (regular signed : Sheet) : Sheet :=
  summaryHeader :: (objectEntries (totalsBySetOf add regular signed)).map groupRow ++
    [grandTotalRow add (totalsBySetOf add regular signed)]

/-- The function `updateCollectionSummary`: the summary sheet is created or
emptied and receives `summaryRows`.  The result is `none` when one of the two
ledger sheets does not exist, in which case `getData` throws. -/
def updateCollectionSummary (add : ℚ → ℚ → ℚ) (ss : Spreadsheet) : Option Spreadsheet :=
  match ss.regular, ss.signed with
  | some regular, some signed =>
    some { ss with summary := some (summaryRows add regular signed) }
  | _, _ => none

/-- A ledger data row with the given set, kind, quantity and total value. -/
def ledgerRow (set : Cell) (kind : String) (quantity total : Cell) : Row :=
  [set, .num 1, .str "Some Card", .str "An Artist", .str "2022-02-18", .str kind,
    .num 0, .num 0, .num 0, quantity, total, .str "id-1"]

/-- An Unsigned ledger whose groups are met in the order B, 7, B. -/
def orderRegular : Sheet :=
  [ledgerHeader, ledgerRow (.str "B") "Regular" (.num 2) (.num 8),
    ledgerRow (.str "7") "Regular" (.num 1) (.num 3),
    ledgerRow (.str "B") "Regular" (.num 4) (.num 5)]

/-- A Signed ledger with one row of group B and one of a further group A. -/
def orderSigned : Sheet :=
  [ledgerHeader, ledgerRow (.str "B") "Signed" (.num 1) (.str ""),
    ledgerRow (.str "A") "Signed" (.num 6) (.str "")]

/-! ## Specification-side notions of the summary -/

/-- The quantity owned that the summary reads in a ledger row. -/
def quantityOwned (row : Row) : ℚ := numberOrZero (cellAt row 9)

/-- The total value that the summary reads in a ledger row. -/
def rowTotalValue (row : Row) : ℚ := numberOrZero (cellAt row 10)

/-- Whether the "Signed/Regular" cell of a ledger row reads "Signed". -/
def flaggedSigned (row : Row) : Bool := cellAt row 5 == .str "Signed"

/-- The group of a ledger row: the text of its "Set" cell. -/
def groupOf (row : Row) : String := toStr (cellAt row 0)

/-- The groups of the data rows in the order of the scan: the Unsigned
ledger top to bottom, then the Signed ledger. -/
def groupsOf (regular signed : Sheet) : List String :=
  (regular.tail ++ signed.tail).map groupOf

/-- The distinct elements of a list in the order in which they are first
encountered. -/
def firstSeen : List String → List String
  | [] => []
  | k :: ks => k :: (firstSeen ks).filter fun x => x ≠ k

/-- The groups of the group rows of the summary, top to bottom. -/
def groupKeys (add : ℚ → ℚ → ℚ) (regular signed : Sheet) : List String :=
  (objectEntries (totalsBySetOf add regular signed)).map Prod.fst

/-- A list of keys with one more key met: appended when it is new. -/
def seenStep (acc : List String) (k : String) : List String :=
  if k ∈ acc then acc else acc ++ [k]

/-- The update that `addToTotals` applies to the totals of the row's group. -/
def bump (add : ℚ → ℚ → ℚ) (row : LedgerEntry) (t : Totals) : Totals :=
  ⟨add t.quantity row.quantity, if row.signed then t.value else add t.value row.totalValue⟩

/-- What is assumed of the addition of doubles where exact sums are claimed:
on two natural multiples `a / 2 ^ k` and `b / 2 ^ k` of a power of two, with
`k` at most 1022 and `a + b` at most 2 ^ 53, it returns their sum.  (Such
multiples and their sum are doubles, the smallest positive normal double being
`1 / 2 ^ 1022`, and the sum of two doubles that is a double is not rounded.)
For `k = 0` these are the natural numbers with a sum of at most 2 ^ 53. -/
def ExactOnDyadics (add : ℚ → ℚ → ℚ) : Prop :=
  ∀ k a b : ℕ, k ≤ 1022 → a + b ≤ 2 ^ 53 →
    add ((a : ℚ) / 2 ^ k) ((b : ℚ) / 2 ^ k) = ((a + b : ℕ) : ℚ) / 2 ^ k

/-- An Unsigned ledger whose only data row has a Set cell that reads
`constructor`, with quantity 2 and total value 5. -/
def inheritedRegular : Sheet :=
  [ledgerHeader, ledgerRow (.str "constructor") "Regular" (.num 2) (.num 5)]

/-- Addition without rounding, which is what the addition of doubles is
wherever `ExactOnDyadics` speaks of it. -/
def exactAdd : ℚ → ℚ → ℚ := fun a b => a + b

/-- Whether `Number(x)` of the cell value is a natural multiple of
`1 / 2 ^ k`: for `k = 0` a natural number, for `k = 2` a number of quarters. -/
def readsDyadic (k : Nat) (c : Cell) : Bool :=
  match toNumber c with
  | .num q => decide ((q * 2 ^ k).den = 1 ∧ 0 ≤ q.num)
  | _ => false

/-- An Unsigned ledger with total values in halves and quarters: 12.5 and
4.25 in group B, 0.75 in group A. -/
def quartersRegular : Sheet :=
  [ledgerHeader, ledgerRow (.str "B") "Regular" (.num 2) (.num (mkRat 25 2)),
    ledgerRow (.str "A") "Regular" (.num 1) (.num (mkRat 3 4)),
    ledgerRow (.str "B") "Regular" (.str "3") (.str " 4.25 ")]

/-- A property that every double has: written in lowest terms, its numerator
is even or below 2 ^ 53.  (A double is `m * 2 ^ e` for integers `m` and `e`
with `|m| < 2 ^ 53`; in lowest terms the numerator is `m * 2 ^ e` with
`e > 0`, which is even, or a divisor of `m`.) -/
def fitsMantissa (q : ℚ) : Bool :=
  q.num.natAbs % 2 = 0 || q.num.natAbs < 2 ^ 53

/-- An Unsigned ledger of three rows of one group whose total values are the
doubles written `0.1`, `0.3` and `0.2`. -/
def roundingRegular : Sheet :=
  [ledgerHeader,
    ledgerRow (.str "B") "Regular" (.num 1) (.num (mkRat 3602879701896397 36028797018963968)),
    ledgerRow (.str "B") "Regular" (.num 1) (.num (mkRat 5404319552844595 18014398509481984)),
    ledgerRow (.str "B") "Regular" (.num 1) (.num (mkRat 3602879701896397 18014398509481984))]

/-- A pasted line whose card name is the text of the header cell of the
"Card Name" column of the ledgers. -/
def specHeaderLine : String := "1 Card Name Art Card $2.00"

/-- A spreadsheet whose "Raw Import" sheet holds `specHeaderLine` and whose
ledgers are those of the example: one catalog card, named "Some Card". -/
def specHeaderSpreadsheet : Spreadsheet :=
  ⟨some [[.str specHeaderLine]], none, some specRegular, some specSigned, none⟩

/-! ## Specification-side notions of the batch refresh -/

/-- The price that a refresh writes into column `j + 1` of a row: the low
price into column 7, the average price into column 8, the market price into
column 9. -/
def priceCell (p : Prices) (j : Nat) : Cell :=
  if j = 6 then p.low else if j = 7 then p.avg else p.market

/-- Cell `j` of row `r` (both 0-based) of the sheet in which the first `n`
data rows have been refreshed: in those rows the cells of columns 7 to 9 hold
the prices fetched for the id in column 12 of the row, and every other cell
of the sheet is as before. -/
def refreshedCell (fetch : Cell → Prices) (sheet : Sheet) (n r j : Nat) : Cell :=
  if 1 ≤ r ∧ r ≤ n ∧ (j = 6 ∨ j = 7 ∨ j = 8) then
    priceCell (fetch (cellAt (rowAt sheet r) 11)) j
  else cellAt (rowAt sheet r) j

/-! # Properties -/

/-! ## Reading and writing cells -/

theorem cellAt_of_length_le {row : Row} {k : Nat} (h : row.length ≤ k) :
    cellAt row k = .str "" := by
  simp [cellAt, List.getD_eq_getElem?_getD, List.getElem?_eq_none h]

theorem rowAt_of_length_le {sh : Sheet} {i : Nat} (h : sh.length ≤ i) : rowAt sh i = [] := by
  simp [rowAt, List.getD_eq_getElem?_getD, List.getElem?_eq_none h]

theorem length_setRow (row : Row) (j : Nat) (v : Cell) :
    (setRow row j v).length = max row.length (j + 1) := by
  simp [setRow]

theorem cellAt_setRow (row : Row) (j k : Nat) (v : Cell) :
    cellAt (setRow row j v) k = if k = j then v else cellAt row k := by
  by_cases hk : k < max row.length (j + 1)
  · simp [cellAt, setRow, List.getD_eq_getElem?_getD, List.getElem?_map, List.getElem?_range hk]
  · have h1 : row.length ≤ k := by omega
    have h2 : k ≠ j := by omega
    rw [cellAt_of_length_le (by rw [length_setRow]; omega), if_neg h2, cellAt_of_length_le h1]

theorem row_ext {a b : Row} (hl : a.length = b.length) (h : ∀ k, cellAt a k = cellAt b k) :
    a = b := by
  apply List.ext_getElem hl
  intro k h1 h2
  have := h k
  simpa [cellAt, List.getD_eq_getElem?_getD, List.getElem?_eq_getElem h1,
    List.getElem?_eq_getElem h2] using this

theorem sheet_ext {a b : Sheet} (hl : a.length = b.length) (h : ∀ i, rowAt a i = rowAt b i) :
    a = b := by
  apply List.ext_getElem hl
  intro k h1 h2
  have := h k
  simpa [rowAt, List.getD_eq_getElem?_getD, List.getElem?_eq_getElem h1,
    List.getElem?_eq_getElem h2] using this

theorem length_setValue (sh : Sheet) (r c : Nat) (v : Cell) :
    (setValue sh r c v).length = if c = 0 then sh.length else max sh.length r := by
  unfold setValue
  by_cases hc : c = 0
  · simp [hc]
  · by_cases hr : r = 0
    · simp [hr, hc]
    · simp [hr, hc]

theorem length_setValue_of_le {sh : Sheet} {r : Nat} (c : Nat) (v : Cell) (h : r ≤ sh.length) :
    (setValue sh r c v).length = sh.length := by
  rw [length_setValue]; split <;> omega

theorem rowAt_setValue (sh : Sheet) (r c i : Nat) (v : Cell) (hc : c ≠ 0) :
    rowAt (setValue sh r c v) i =
      if i + 1 = r then setRow (rowAt sh i) (c - 1) v else rowAt sh i := by
  by_cases hr : r = 0
  · simp [setValue, hr]
  · by_cases hi : i < max sh.length r
    · simp [setValue, hr, hc, rowAt, List.getD_eq_getElem?_getD, List.getElem?_map,
        List.getElem?_range hi]
    · have h1 : sh.length ≤ i := by omega
      have h2 : i + 1 ≠ r := by omega
      rw [rowAt_of_length_le (by rw [length_setValue]; split <;> omega), if_neg h2,
        rowAt_of_length_le h1]

theorem setRow_setRow_same (row : Row) (j : Nat) (v w : Cell) :
    setRow (setRow row j v) j w = setRow row j w := by
  apply row_ext
  · simp [length_setRow]
  · intro k; simp only [cellAt_setRow]; split <;> rfl

theorem setRow_comm (row : Row) {j k : Nat} (v w : Cell) (h : j ≠ k) :
    setRow (setRow row j v) k w = setRow (setRow row k w) j v := by
  apply row_ext
  · simp only [length_setRow]; omega
  · intro m; simp only [cellAt_setRow]
    by_cases h1 : m = k
    · subst h1
      have h2 : m ≠ j := fun e => h e.symm
      simp [h2]
    · simp [h1]

theorem setValue_setValue_same (sh : Sheet) (r c : Nat) (v w : Cell) :
    setValue (setValue sh r c v) r c w = setValue sh r c w := by
  by_cases hc : c = 0
  · simp [setValue, hc]
  apply sheet_ext
  · simp only [length_setValue, if_neg hc]; omega
  · intro i
    simp only [rowAt_setValue _ _ _ _ _ hc]
    split
    · rw [setRow_setRow_same]
    · rfl

theorem setValue_comm (sh : Sheet) {r c r2 c2 : Nat} (v w : Cell) (h : r ≠ r2 ∨ c ≠ c2) :
    setValue (setValue sh r c v) r2 c2 w = setValue (setValue sh r2 c2 w) r c v := by
  by_cases hc : c = 0
  · simp [setValue, hc]
  by_cases hc2 : c2 = 0
  · simp [setValue, hc2]
  apply sheet_ext
  · simp only [length_setValue, if_neg hc, if_neg hc2]; omega
  · intro i
    simp only [rowAt_setValue _ _ _ _ _ hc, rowAt_setValue _ _ _ _ _ hc2]
    by_cases h1 : i + 1 = r
    · by_cases h2 : i + 1 = r2
      · have h3 : c - 1 ≠ c2 - 1 := by omega
        simp only [if_pos h1, if_pos h2]
        exact setRow_comm _ _ _ h3
      · simp only [if_pos h1, if_neg h2]
    · by_cases h2 : i + 1 = r2
      · simp only [if_neg h1, if_pos h2]
      · simp only [if_neg h1, if_neg h2]

/-! ## Header resolution -/

theorem includesChars_iff (s t : List Char) : includesChars s t = true ↔ t <:+: s := by
  induction s with
  | nil => simp [includesChars, List.isEmpty_iff]
  | cons c s ih =>
    simp only [includesChars, Bool.or_eq_true, ih, List.isPrefixOf_iff_prefix]
    exact List.infix_cons_iff.symm

theorem headerMatches_iff (synonyms : List String) (cell : String) :
    headerMatches synonyms cell = true ↔ MatchesSynonym synonyms cell := by
  simp [headerMatches, MatchesSynonym, includes, includesChars_iff]

theorem findIndexLoop_neg (synonyms : List String) (rest : List String) (i : Nat) :
    findIndexLoop synonyms rest i = -1 ↔ ∀ cell ∈ rest, ¬ MatchesSynonym synonyms cell := by
  induction rest generalizing i with
  | nil => simp [findIndexLoop]
  | cons c rest ih =>
    simp only [findIndexLoop, List.mem_cons, forall_eq_or_imp]
    by_cases h : headerMatches synonyms c = true
    · rw [if_pos h]
      have hm := (headerMatches_iff _ _).1 h
      constructor
      · intro e; omega
      · intro e; exact absurd hm e.1
    · rw [if_neg h, ih]
      have hn : ¬ MatchesSynonym synonyms c := fun hm => h ((headerMatches_iff _ _).2 hm)
      simp [hn]

theorem findIndexLoop_nat (synonyms : List String) (rest : List String) (i k : Nat) :
    findIndexLoop synonyms rest i = (k : Int) ↔
      i ≤ k ∧ ∃ cell, rest[k - i]? = some cell ∧ MatchesSynonym synonyms cell ∧
        ∀ j, j < k - i → ∀ c, rest[j]? = some c → ¬ MatchesSynonym synonyms c := by
  induction rest generalizing i with
  | nil => simp [findIndexLoop]
  | cons c rest ih =>
    simp only [findIndexLoop]
    by_cases h : headerMatches synonyms c = true
    · rw [if_pos h]
      constructor
      · intro e
        have e2 : i = k := by omega
        subst e2
        refine ⟨le_refl _, c, by simp, (headerMatches_iff _ _).1 h, ?_⟩
        intro j hj; omega
      · rintro ⟨hik, cell, hc, hm, hmin⟩
        by_cases e : k = i
        · subst e; rfl
        · exfalso
          have : 0 < k - i := by omega
          exact hmin 0 this c (by simp) ((headerMatches_iff _ _).1 h)
    · have hn : ¬ MatchesSynonym synonyms c := fun hm => h ((headerMatches_iff _ _).2 hm)
      rw [if_neg h, ih]
      constructor
      · rintro ⟨hik, cell, hc, hm, hmin⟩
        refine ⟨by omega, cell, ?_, hm, ?_⟩
        · have e : k - i = (k - (i + 1)) + 1 := by omega
          rw [e, List.getElem?_cons_succ]; exact hc
        · intro j hj c2 hc2
          cases j with
          | zero => simp at hc2; subst hc2; exact hn
          | succ j =>
            rw [List.getElem?_cons_succ] at hc2
            exact hmin j (by omega) c2 hc2
      · rintro ⟨hik, cell, hc, hm, hmin⟩
        have hne : k ≠ i := by
          intro e; subst e
          simp at hc; subst hc; exact hn hm
        have e : k - i = (k - (i + 1)) + 1 := by omega
        refine ⟨by omega, cell, ?_, hm, ?_⟩
        · rw [e, List.getElem?_cons_succ] at hc; exact hc
        · intro j hj c2 hc2
          exact hmin (j + 1) (by omega) c2 (by rw [List.getElem?_cons_succ]; exact hc2)

theorem findIndexLoop_range (synonyms : List String) (rest : List String) (i : Nat) :
    findIndexLoop synonyms rest i = -1 ∨
      ∃ k : Nat, findIndexLoop synonyms rest i = (k : Int) ∧ i ≤ k ∧ k < i + rest.length := by
  induction rest generalizing i with
  | nil => simp [findIndexLoop]
  | cons c rest ih =>
    simp only [findIndexLoop]
    split
    · exact Or.inr ⟨i, rfl, le_refl _, by simp⟩
    · rcases ih (i + 1) with h | ⟨k, hk, h1, h2⟩
      · exact Or.inl h
      · exact Or.inr ⟨k, hk, by omega, by simp; omega⟩

/-- C6. The column resolver `findIndex` returns the smallest index whose
header cell, in lowercase, contains the lowercase form of some synonym, and it
returns -1 exactly when no header cell contains any synonym; it returns
nothing else. -/
theorem findIndex_smallest_match (header synonyms : List String) :
    (findIndex header synonyms = -1 ↔ ∀ cell ∈ header, ¬ MatchesSynonym synonyms cell) ∧
    (∀ i : Nat, findIndex header synonyms = (i : Int) ↔
      ∃ cell, header[i]? = some cell ∧ MatchesSynonym synonyms cell ∧
        ∀ j, j < i → ∀ c, header[j]? = some c → ¬ MatchesSynonym synonyms c) ∧
    (findIndex header synonyms = -1 ∨
      ∃ i : Nat, i < header.length ∧ findIndex header synonyms = (i : Int)) := by
  refine ⟨findIndexLoop_neg _ _ _, ?_, ?_⟩
  · intro i
    have := findIndexLoop_nat synonyms header 0 i
    simpa [findIndex] using this
  · rcases findIndexLoop_range synonyms header 0 with h | ⟨k, hk, _, h2⟩
    · exact Or.inl h
    · exact Or.inr ⟨k, by omega, hk⟩

/-! ## The staging header -/

theorem resolveColumns_stagingHeader :
    resolveColumns (stagingHeader.map toStr) = ⟨0, 1, -1, 3, 2⟩ := by decide

/-- C8 (the code at the failing input). With the header row that
`parsePriceListToInventory` writes to "Inventory Import", the resolver finds
no signature column, so `updateQuantitiesFromImport` stops at the alert
"Could not detect required columns" and merges none of the staged rows. -/
theorem staging_table_rejected (ss : Spreadsheet) (rows : List Row)
    (h : ss.inventoryImport = some (stagingHeader :: rows)) (hrows : rows ≠ []) :
    (resolveColumns (stagingHeader.map toStr)).sigIdx = -1 ∧
      updateQuantitiesFromImport ss = (ss, .missingColumns) := by
  refine ⟨by decide, ?_⟩
  have hlen : ¬ (stagingHeader :: rows).length ≤ 1 := by
    cases rows with
    | nil => exact absurd rfl hrows
    | cons r rs => simp
  unfold updateQuantitiesFromImport
  rw [h]
  simp only [if_neg hlen, List.headD_cons, resolveColumns_stagingHeader]
  rfl

/-- The staged row (NEO, 42, 2, 4) under the staging header is not merged. -/
theorem staging_table_rejected_witness :
    (resolveColumns (stagingHeader.map toStr)).sigIdx = -1 ∧
      updateQuantitiesFromImport
          ⟨none, some [stagingHeader, [.str "NEO", .num 42, .num 2, .num 4]], none, none, none⟩ =
        (⟨none, some [stagingHeader, [.str "NEO", .num 42, .num 2, .num 4]], none, none, none⟩,
          .missingColumns) :=
  staging_table_rejected _ [[.str "NEO", .num 42, .num 2, .num 4]] rfl (by simp)

/-! ## The import parser -/

/-- C9. The line of the specification example is a candidate line, and the
extraction yields quantity 3, name "Lightning Bolt", unit price 12.50 and the
gold-stamped flag. -/
theorem parseLine_example :
    isCandidate "3 Lightning Bolt Art Card — Gold-Stamped Signature $12.50" = true ∧
      parseLine "3 Lightning Bolt Art Card — Gold-Stamped Signature $12.50" =
        ⟨.num 3, "Lightning Bolt", .num 12.5, true⟩ := by
  decide!

theorem digitsValue_append (ds : List Char) (c : Char) :
    digitsValue (ds ++ [c]) = digitsValue ds * 10 + digitVal c := by
  simp [digitsValue, List.foldl_append]

theorem digitsValue_eq_decimalValue (ds : List Char) : digitsValue ds = decimalValue ds := by
  induction ds using List.reverseRecOn with
  | nil => simp [digitsValue, decimalValue]
  | append_singleton ds c ih =>
    rw [digitsValue_append, ih]
    simp [decimalValue, Nat.ofDigits_cons]
    ring

theorem takeWhile_takeWhile_self (p : Char → Bool) (l : List Char) :
    (l.takeWhile p).takeWhile p = l.takeWhile p := by
  induction l with
  | nil => rfl
  | cons a l ih =>
    by_cases h : p a = true
    · simp [List.takeWhile_cons, h, ih]
    · simp [List.takeWhile_cons, h]

theorem isJsSpace_of_isDigit {c : Char} (h : isDigit c = true) : isJsSpace c = false := by
  simp only [isDigit, Bool.and_eq_true, decide_eq_true_eq] at h
  simp only [isJsSpace, Bool.or_eq_false_iff, Bool.and_eq_false_iff, decide_eq_false_iff_not]
  omega

theorem parseInt10_digits (ds : List Char) (hne : ds ≠ []) (hall : ∀ c ∈ ds, isDigit c = true) :
    parseInt10 (String.mk ds) = .num (digitsValue ds : ℕ) := by
  cases ds with
  | nil => exact absurd rfl hne
  | cons c ds =>
    have hc : isDigit c = true := hall c (by simp)
    have hsp : isJsSpace c = false := isJsSpace_of_isDigit hc
    have hdrop : (c :: ds).dropWhile isJsSpace = c :: ds := by
      simp [List.dropWhile_cons, hsp]
    have hm : c ≠ '-' := by intro e; subst e; revert hc; decide
    have hp : c ≠ '+' := by intro e; subst e; revert hc; decide
    have hsign : takeSign (c :: ds) = (false, c :: ds) := by
      unfold takeSign
      split
      · rename_i heq; simp at heq; exact absurd heq.1 hm
      · rename_i heq; simp at heq; exact absurd heq.1 hp
      · rfl
    have htake : (c :: ds).takeWhile isDigit = c :: ds := by
      rw [List.takeWhile_eq_self_iff]; exact hall
    simp [parseInt10, hdrop, hsign, htake, applySign]

theorem leadingDigits_isEmpty (line : String) :
    (leadingDigits line).isEmpty = !startsWithDigit line := by
  unfold leadingDigits startsWithDigit
  cases line.data with
  | nil => rfl
  | cons c s =>
    by_cases h : isDigit c = true
    · simp [List.takeWhile_cons, h]
    · simp [List.takeWhile_cons, h]

theorem quantity_eq (line : String) :
    (parseLine line).quantity =
      if startsWithDigit line then .num (decimalValue (leadingDigits line) : ℕ) else .num 1 := by
  have hE := leadingDigits_isEmpty line
  by_cases h : startsWithDigit line = true
  · rw [if_pos h]
    rw [h] at hE
    have hne : leadingDigits line ≠ [] := by
      intro e; rw [e] at hE; simp at hE
    have hq : quantityMatch line = some (String.mk (leadingDigits line)) := by
      unfold quantityMatch
      simp only [← leadingDigits.eq_1 line, hE]
      rfl
    simp only [parseLine, hq]
    rw [parseInt10_digits _ hne, digitsValue_eq_decimalValue]
    intro c hc
    exact (List.mem_takeWhile_imp hc)
  · rw [if_neg h]
    have h2 : startsWithDigit line = false := by simpa using h
    rw [h2] at hE
    have hq : quantityMatch line = none := by
      unfold quantityMatch
      simp only [← leadingDigits.eq_1 line, hE]
      rfl
    simp only [parseLine, hq]

/-- C10 (as amended). For every line whose leading run of digits has a value
of at most 2 ^ 53 (the range in which the number that `parseInt` returns is
the exact value of the digits), the extracted quantity is a natural number of
at most 2 ^ 53: the value of the leading run of digits when the line starts
with a digit, and 1 otherwise.  It is at least 1 exactly when the line does
not start with a run of digits whose value is 0. -/
theorem quantity_leading_digits_or_one (line : String)
    (hb : decimalValue (leadingDigits line) ≤ 2 ^ 53) :
    ∃ n : Nat, (parseLine line).quantity = .num (n : ℚ) ∧
      n = (if startsWithDigit line then decimalValue (leadingDigits line) else 1) ∧
      n ≤ 2 ^ 53 ∧
      (1 ≤ n ↔ ¬ (startsWithDigit line = true ∧ decimalValue (leadingDigits line) = 0)) := by
  by_cases h : startsWithDigit line = true
  · refine ⟨decimalValue (leadingDigits line), ?_, ?_, hb, ?_⟩
    · rw [quantity_eq, if_pos h]
    · rw [if_pos h]
    · simp only [h, true_and]; omega
  · refine ⟨1, ?_, ?_, by norm_num, ?_⟩
    · rw [quantity_eq, if_neg h]; simp
    · rw [if_neg h]
    · simp [h]

/-- The line `3 Lightning Bolt Art Card $1.00` starts with the digit run `3`,
whose value is within the bound, and gets quantity 3. -/
theorem quantity_leading_digits_witness :
    decimalValue (leadingDigits "3 Lightning Bolt Art Card $1.00") ≤ 2 ^ 53 ∧
    ∃ n : Nat, (parseLine "3 Lightning Bolt Art Card $1.00").quantity = .num (n : ℚ) ∧
      n = (if startsWithDigit "3 Lightning Bolt Art Card $1.00" then
        decimalValue (leadingDigits "3 Lightning Bolt Art Card $1.00") else 1) ∧
      n ≤ 2 ^ 53 ∧
      (1 ≤ n ↔ ¬ (startsWithDigit "3 Lightning Bolt Art Card $1.00" = true ∧
        decimalValue (leadingDigits "3 Lightning Bolt Art Card $1.00") = 0)) :=
  ⟨by decide, quantity_leading_digits_or_one "3 Lightning Bolt Art Card $1.00" (by decide)⟩

/-- C10 (counterexample). A candidate line that starts with the digit 0 gets
quantity 0, which is not an integer that is at least 1. -/
theorem quantity_zero_counterexample :
    isCandidate "0 Lightning Bolt Art Card $1.00" = true ∧
      (parseLine "0 Lightning Bolt Art Card $1.00").quantity = .num 0 ∧
      ¬ ∃ n : Nat, 1 ≤ n ∧ (parseLine "0 Lightning Bolt Art Card $1.00").quantity = .num (n : ℚ) := by
  have hq : (parseLine "0 Lightning Bolt Art Card $1.00").quantity = .num 0 := by decide
  refine ⟨by decide, hq, ?_⟩
  rintro ⟨n, hn, e⟩
  rw [hq] at e
  injection e with e
  have : (n : ℚ) = 0 := e.symm
  have : n = 0 := by exact_mod_cast this
  omega

/-! ## The batch refresh loop -/

theorem refreshLoop_spec (fetch : Cell → Prices) (startRow : Nat) (ids : List Cell) :
    ∀ (i : Nat) (sh : Sheet) (done : List Nat), startRow + i + ids.length ≤ sh.length + 1 →
      (refreshLoop fetch startRow ids i sh done).1.length = sh.length ∧
      (refreshLoop fetch startRow ids i sh done).2 =
        done ++ List.range' (startRow + i) ids.length := by
  induction ids with
  | nil => intro i sh done _; simp [refreshLoop]
  | cons cardID rest ih =>
    intro i sh done h
    simp only [List.length_cons] at h
    have hrow : startRow + i ≤ sh.length := by omega
    have h1 := length_setValue_of_le 7 (fetch cardID).low hrow
    have h2 := length_setValue_of_le 8 (fetch cardID).avg (h1.symm ▸ hrow)
    have h3 := length_setValue_of_le 9 (fetch cardID).market (h2.symm ▸ h1.symm ▸ hrow)
    have hlen3 := h3.trans (h2.trans h1)
    have := ih (i + 1) _ (done ++ [startRow + i]) (by rw [hlen3]; omega)
    simp only [refreshLoop]
    refine ⟨this.1.trans hlen3, ?_⟩
    rw [this.2, List.length_cons, List.range'_succ, List.append_assoc]
    rfl

theorem cellAt_setValue (sh : Sheet) (r c i j : Nat) (v : Cell) (hc : c ≠ 0) :
    cellAt (rowAt (setValue sh r c v) i) j =
      if i + 1 = r ∧ j + 1 = c then v else cellAt (rowAt sh i) j := by
  rw [rowAt_setValue _ _ _ _ _ hc]
  by_cases h1 : i + 1 = r
  · rw [if_pos h1, cellAt_setRow]
    by_cases h2 : j = c - 1
    · rw [if_pos h2, if_pos ⟨h1, by omega⟩]
    · rw [if_neg h2, if_neg (fun h => h2 (by omega))]
  · rw [if_neg h1, if_neg (fun h => h1 h.1)]

theorem refreshLoop_cells (fetch : Cell → Prices) (startRow : Nat) (ids : List Cell) :
    ∀ (i : Nat) (sh : Sheet) (done : List Nat) (r j : Nat),
      cellAt (rowAt (refreshLoop fetch startRow ids i sh done).1 r) j =
        if startRow + i ≤ r + 1 ∧ r + 1 < startRow + i + ids.length ∧
            (j = 6 ∨ j = 7 ∨ j = 8) then
          priceCell (fetch (ids.getD (r + 1 - (startRow + i)) (.str ""))) j
        else cellAt (rowAt sh r) j := by
  induction ids with
  | nil =>
    intro i sh done r j
    rw [if_neg]
    · rfl
    · simp only [List.length_nil]; omega
  | cons cardID rest ih =>
    intro i sh done r j
    simp only [refreshLoop]
    rw [ih, cellAt_setValue _ _ _ _ _ _ (by omega), cellAt_setValue _ _ _ _ _ _ (by omega),
      cellAt_setValue _ _ _ _ _ _ (by omega)]
    simp only [List.length_cons]
    by_cases hhere : r + 1 = startRow + i
    · have hA' : ¬ (startRow + (i + 1) ≤ r + 1 ∧ r + 1 < startRow + (i + 1) + rest.length ∧
          (j = 6 ∨ j = 7 ∨ j = 8)) := by omega
      rw [if_neg hA']
      by_cases hcol : j = 6 ∨ j = 7 ∨ j = 8
      · have hA : startRow + i ≤ r + 1 ∧ r + 1 < startRow + i + (rest.length + 1) ∧
            (j = 6 ∨ j = 7 ∨ j = 8) := ⟨by omega, by omega, hcol⟩
        have e : r + 1 - (startRow + i) = 0 := by omega
        rw [if_pos hA, e, List.getD_cons_zero]
        rcases hcol with h | h | h <;> subst h <;> simp [priceCell, hhere]
      · rw [if_neg (show ¬ (startRow + i ≤ r + 1 ∧ r + 1 < startRow + i + (rest.length + 1) ∧
            (j = 6 ∨ j = 7 ∨ j = 8)) from fun h => hcol h.2.2),
          if_neg (show ¬ (r + 1 = startRow + i ∧ j + 1 = 9) by omega),
          if_neg (show ¬ (r + 1 = startRow + i ∧ j + 1 = 8) by omega),
          if_neg (show ¬ (r + 1 = startRow + i ∧ j + 1 = 7) by omega)]
    · rw [if_neg (show ¬ (r + 1 = startRow + i ∧ j + 1 = 9) from fun h => hhere h.1),
        if_neg (show ¬ (r + 1 = startRow + i ∧ j + 1 = 8) from fun h => hhere h.1),
        if_neg (show ¬ (r + 1 = startRow + i ∧ j + 1 = 7) from fun h => hhere h.1)]
      by_cases hA' : startRow + (i + 1) ≤ r + 1 ∧ r + 1 < startRow + (i + 1) + rest.length ∧
          (j = 6 ∨ j = 7 ∨ j = 8)
      · have hA : startRow + i ≤ r + 1 ∧ r + 1 < startRow + i + (rest.length + 1) ∧
            (j = 6 ∨ j = 7 ∨ j = 8) := ⟨by omega, by omega, hA'.2.2⟩
        have e : r + 1 - (startRow + i) = (r + 1 - (startRow + (i + 1))) + 1 := by omega
        rw [if_pos hA', if_pos hA, e, List.getD_cons_succ]
      · rw [if_neg hA', if_neg]
        intro h
        exact hA' ⟨by omega, by omega, h.2.2⟩

theorem updatePricesInBatches_step (fetch : Cell → Prices) (K : Nat) (cur : Option Nat)
    (sheet : Sheet) (hlen : sheet.length = K + 1) (hidx : cur.getD 0 < K) :
    ∃ sheet2 summary, sheet2.length = K + 1 ∧
      (∀ r j, cellAt (rowAt sheet2 r) j =
        if cur.getD 0 + 1 ≤ r ∧ r ≤ cur.getD 0 + min 200 (K - cur.getD 0) ∧
            (j = 6 ∨ j = 7 ∨ j = 8) then
          priceCell (fetch (cellAt (rowAt sheet r) 11)) j
        else cellAt (rowAt sheet r) j) ∧
      updatePricesInBatches fetch ⟨cur, some sheet⟩ =
        some ⟨⟨if cur.getD 0 + 200 < K then some (cur.getD 0 + 200) else none, some sheet2⟩,
          List.range' (2 + cur.getD 0) (min 200 (K - cur.getD 0)), summary⟩ := by
  generalize hx : cur.getD 0 = idx at hidx ⊢
  have hlast : ¬ sheet.length < 2 := by omega
  have hrange : ¬ min (2 + idx + 200 - 1) sheet.length + 1 ≤ 2 + idx := by omega
  have hn : min (2 + idx + 200 - 1) sheet.length + 1 - (2 + idx) = min 200 (K - idx) := by
    omega
  have hspec := refreshLoop_spec fetch (2 + idx)
    ((List.range (min 200 (K - idx))).map fun i =>
      cellAt (rowAt sheet (2 + idx + i - 1)) 11) 0 sheet []
    (by simp only [List.length_map, List.length_range]; omega)
  simp only [List.length_map, List.length_range, List.nil_append, Nat.add_zero] at hspec
  have hcells : ∀ r j, cellAt (rowAt (refreshLoop fetch (2 + idx)
      ((List.range (min 200 (K - idx))).map fun i =>
        cellAt (rowAt sheet (2 + idx + i - 1)) 11) 0 sheet []).1 r) j =
      if idx + 1 ≤ r ∧ r ≤ idx + min 200 (K - idx) ∧ (j = 6 ∨ j = 7 ∨ j = 8) then
        priceCell (fetch (cellAt (rowAt sheet r) 11)) j
      else cellAt (rowAt sheet r) j := by
    intro r j
    rw [refreshLoop_cells]
    simp only [List.length_map, List.length_range, Nat.add_zero]
    by_cases h : idx + 1 ≤ r ∧ r ≤ idx + min 200 (K - idx) ∧ (j = 6 ∨ j = 7 ∨ j = 8)
    · have hk : r + 1 - (2 + idx) < min 200 (K - idx) := by omega
      rw [if_pos ⟨by omega, by omega, h.2.2⟩, if_pos h, List.getD_eq_getElem?_getD,
        List.getElem?_map, List.getElem?_range hk]
      have e : 2 + idx + (r + 1 - (2 + idx)) - 1 = r := by omega
      simp only [Option.map_some', Option.getD_some, e]
    · rw [if_neg h, if_neg]
      intro h2
      exact h ⟨by omega, by omega, h2.2.2⟩
  unfold updatePricesInBatches
  simp only [BATCH_SIZE, hx, if_neg hlast, if_neg hrange, hn]
  by_cases hmore : idx + 200 < K
  · have : min (2 + idx + 200 - 1) sheet.length < sheet.length := by omega
    rw [if_pos this, if_pos hmore]
    exact ⟨_, false, hspec.1.trans hlen, hcells, by rw [hspec.2]⟩
  · have : ¬ min (2 + idx + 200 - 1) sheet.length < sheet.length := by omega
    rw [if_neg this, if_neg hmore]
    exact ⟨_, true, hspec.1.trans hlen, hcells, by rw [hspec.2]⟩

theorem refreshedCell_step (fetch : Cell → Prices) (sheet0 s1 s2 : Sheet) (n cnt : Nat)
    (h1 : ∀ r j, cellAt (rowAt s1 r) j = refreshedCell fetch sheet0 n r j)
    (h2 : ∀ r j, cellAt (rowAt s2 r) j =
      if n + 1 ≤ r ∧ r ≤ n + cnt ∧ (j = 6 ∨ j = 7 ∨ j = 8) then
        priceCell (fetch (cellAt (rowAt s1 r) 11)) j
      else cellAt (rowAt s1 r) j) :
    ∀ r j, cellAt (rowAt s2 r) j = refreshedCell fetch sheet0 (n + cnt) r j := by
  intro r j
  have hid : cellAt (rowAt s1 r) 11 = cellAt (rowAt sheet0 r) 11 := by
    rw [h1]; unfold refreshedCell; rw [if_neg]; omega
  rw [h2, hid, h1]
  unfold refreshedCell
  by_cases hcol : j = 6 ∨ j = 7 ∨ j = 8
  · by_cases hnew : n + 1 ≤ r ∧ r ≤ n + cnt
    · rw [if_pos ⟨hnew.1, hnew.2, hcol⟩, if_pos ⟨by omega, hnew.2, hcol⟩]
    · rw [if_neg (fun h => hnew ⟨h.1, h.2.1⟩)]
      by_cases hold : 1 ≤ r ∧ r ≤ n
      · rw [if_pos ⟨hold.1, hold.2, hcol⟩, if_pos ⟨hold.1, by omega, hcol⟩]
      · rw [if_neg (fun h => hold ⟨h.1, h.2.1⟩), if_neg]
        intro h
        exact hold ⟨h.1, by omega⟩
  · rw [if_neg (fun h => hcol h.2.2), if_neg (fun h => hcol h.2.2),
      if_neg (fun h => hcol h.2.2)]

theorem runBatches_prefix (fetch : Cell → Prices) (K : Nat) (sheet0 : Sheet) :
    ∀ (n j : Nat) (cur : Option Nat) (sheet : Sheet), sheet.length = K + 1 →
      (∀ r c, cellAt (rowAt sheet r) c = refreshedCell fetch sheet0 (200 * j) r c) →
      cur.getD 0 = 200 * j → 200 * (j + n) < K →
      ∃ sheet2, sheet2.length = K + 1 ∧
        (∀ r c, cellAt (rowAt sheet2 r) c = refreshedCell fetch sheet0 (200 * (j + n)) r c) ∧
        runBatches fetch n ⟨cur, some sheet⟩ =
          some (⟨if n = 0 then cur else some (200 * (j + n)), some sheet2⟩,
            List.range' (2 + 200 * j) (200 * n)) := by
  intro n
  induction n with
  | zero => intro j cur sheet hlen hinv _ _; exact ⟨sheet, hlen, hinv, by simp [runBatches]⟩
  | succ n ih =>
    intro j cur sheet hlen hinv hcur hlt
    obtain ⟨s1, summary, hl1, hc1, hstep⟩ :=
      updatePricesInBatches_step fetch K cur sheet hlen (by omega)
    rw [hcur] at hstep hc1
    rw [if_pos (by omega), show min 200 (K - 200 * j) = 200 by omega] at hstep
    rw [show min 200 (K - 200 * j) = 200 by omega] at hc1
    have hinv1 := refreshedCell_step fetch sheet0 sheet s1 (200 * j) 200 hinv hc1
    rw [show 200 * j + 200 = 200 * (j + 1) by omega] at hinv1
    obtain ⟨s2, hl2, hinv2, hrest⟩ := ih (j + 1) (some (200 * j + 200)) s1 hl1 hinv1
      (by simp only [Option.getD_some]; omega) (by omega)
    rw [show j + 1 + n = j + (n + 1) by omega] at hinv2
    refine ⟨s2, hl2, hinv2, ?_⟩
    have hcat : List.range' (2 + 200 * j) 200 ++ List.range' (2 + 200 * (j + 1)) (200 * n) =
        List.range' (2 + 200 * j) (200 * (n + 1)) := by
      have := List.range'_append_1 (2 + 200 * j) 200 (200 * n)
      rw [show 2 + 200 * (j + 1) = 2 + 200 * j + 200 by omega,
        show 200 * (n + 1) = 200 * n + 200 by omega]
      exact this
    have hc : (if n = 0 then some (200 * j + 200) else some (200 * (j + 1 + n))) =
        some (200 * (j + (n + 1))) := by
      by_cases h0 : n = 0
      · subst h0; rw [if_pos rfl]; congr 1
      · rw [if_neg h0]; congr 1; omega
    rw [runBatches, hstep]
    simp only [hrest, hcat, hc]
    simp

theorem runBatches_full (fetch : Cell → Prices) (K : Nat) (sheet0 : Sheet) :
    ∀ (n j : Nat) (cur : Option Nat) (sheet : Sheet), sheet.length = K + 1 →
      (∀ r c, cellAt (rowAt sheet r) c = refreshedCell fetch sheet0 (200 * j) r c) →
      cur.getD 0 = 200 * j → 200 * (j + n) < K → K ≤ 200 * (j + n + 1) →
      ∃ sheet2, sheet2.length = K + 1 ∧
        (∀ r c, cellAt (rowAt sheet2 r) c = refreshedCell fetch sheet0 K r c) ∧
        runBatches fetch (n + 1) ⟨cur, some sheet⟩ =
          some (⟨none, some sheet2⟩, List.range' (2 + 200 * j) (K - 200 * j)) := by
  intro n
  induction n with
  | zero =>
    intro j cur sheet hlen hinv hcur hlt hle
    obtain ⟨s1, summary, hl1, hc1, hstep⟩ :=
      updatePricesInBatches_step fetch K cur sheet hlen (by omega)
    rw [hcur] at hstep hc1
    rw [if_neg (by omega), show min 200 (K - 200 * j) = K - 200 * j by omega] at hstep
    rw [show min 200 (K - 200 * j) = K - 200 * j by omega] at hc1
    have hinv1 := refreshedCell_step fetch sheet0 sheet s1 (200 * j) (K - 200 * j) hinv hc1
    rw [show 200 * j + (K - 200 * j) = K by omega] at hinv1
    refine ⟨s1, hl1, hinv1, ?_⟩
    simp only [runBatches, hstep, List.append_nil]
  | succ n ih =>
    intro j cur sheet hlen hinv hcur hlt hle
    obtain ⟨s1, summary, hl1, hc1, hstep⟩ :=
      updatePricesInBatches_step fetch K cur sheet hlen (by omega)
    rw [hcur] at hstep hc1
    rw [if_pos (by omega), show min 200 (K - 200 * j) = 200 by omega] at hstep
    rw [show min 200 (K - 200 * j) = 200 by omega] at hc1
    have hinv1 := refreshedCell_step fetch sheet0 sheet s1 (200 * j) 200 hinv hc1
    rw [show 200 * j + 200 = 200 * (j + 1) by omega] at hinv1
    obtain ⟨s2, hl2, hinv2, hrest⟩ := ih (j + 1) (some (200 * j + 200)) s1 hl1 hinv1
      (by simp only [Option.getD_some]; omega) (by omega) (by omega)
    refine ⟨s2, hl2, hinv2, ?_⟩
    have hcat : List.range' (2 + 200 * j) 200 ++
        List.range' (2 + 200 * (j + 1)) (K - 200 * (j + 1)) =
        List.range' (2 + 200 * j) (K - 200 * j) := by
      have := List.range'_append_1 (2 + 200 * j) 200 (K - 200 * (j + 1))
      rw [show 2 + 200 * (j + 1) = 2 + 200 * j + 200 by omega,
        show K - 200 * j = K - 200 * (j + 1) + 200 by omega]
      exact this
    rw [runBatches, hstep]
    simp only [hrest, hcat]

theorem refreshedCell_zero (fetch : Cell → Prices) (sheet : Sheet) (r j : Nat) :
    cellAt (rowAt sheet r) j = refreshedCell fetch sheet (200 * 0) r j := by
  unfold refreshedCell
  rw [if_neg]
  omega

/-- C1. For a catalog of `K ≥ 1` data rows (a sheet of `K + 1` rows), starting
from Idle: after `ceil(K / BATCH_SIZE)` invocations the cursor is cleared
again; the rows refreshed by those invocations, in order, are exactly the
sheet rows 2 to `K + 1`, each once; and in the sheet they leave, every data
row holds in columns 7, 8 and 9 the low, average and market price fetched for
the id in its column 12, every other cell being as before.  After any smaller
positive number `m` of invocations the cursor is set (to `BATCH_SIZE * m`),
and it is the first `BATCH_SIZE * m` data rows, and only they, that have been
refreshed in this way. -/
theorem batch_pass_refreshes_each_row_once (fetch : Cell → Prices) (sheet : Sheet) (K : Nat)
    (hK : 1 ≤ K) (hlen : sheet.length = K + 1) :
    (∃ sheet2, sheet2.length = K + 1 ∧
      runBatches fetch ((K + BATCH_SIZE - 1) / BATCH_SIZE) ⟨none, some sheet⟩ =
        some (⟨none, some sheet2⟩, List.range' 2 K) ∧
      (∀ r, 1 ≤ r → r ≤ K →
        cellAt (rowAt sheet2 r) 6 = (fetch (cellAt (rowAt sheet r) 11)).low ∧
        cellAt (rowAt sheet2 r) 7 = (fetch (cellAt (rowAt sheet r) 11)).avg ∧
        cellAt (rowAt sheet2 r) 8 = (fetch (cellAt (rowAt sheet r) 11)).market) ∧
      (∀ r j, r = 0 ∨ K < r ∨ (j ≠ 6 ∧ j ≠ 7 ∧ j ≠ 8) →
        cellAt (rowAt sheet2 r) j = cellAt (rowAt sheet r) j)) ∧
    (∀ m, 0 < m → m < (K + BATCH_SIZE - 1) / BATCH_SIZE →
      ∃ sheet2, sheet2.length = K + 1 ∧
        runBatches fetch m ⟨none, some sheet⟩ =
          some (⟨some (BATCH_SIZE * m), some sheet2⟩, List.range' 2 (BATCH_SIZE * m)) ∧
        (∀ r j, cellAt (rowAt sheet2 r) j = refreshedCell fetch sheet (BATCH_SIZE * m) r j)) := by
  simp only [BATCH_SIZE]
  constructor
  · obtain ⟨n, hn⟩ : ∃ n, (K + 200 - 1) / 200 = n + 1 := ⟨(K + 200 - 1) / 200 - 1, by omega⟩
    obtain ⟨s2, hl2, hinv, hrun⟩ := runBatches_full fetch K sheet n 0 none sheet hlen
      (refreshedCell_zero fetch sheet) (by simp) (by omega) (by omega)
    refine ⟨s2, hl2, ?_, ?_, ?_⟩
    · rw [hn, hrun]; simp
    · intro r h1 h2
      refine ⟨?_, ?_, ?_⟩
      · rw [hinv, refreshedCell, if_pos ⟨h1, h2, Or.inl rfl⟩]; rfl
      · rw [hinv, refreshedCell, if_pos ⟨h1, h2, Or.inr (Or.inl rfl)⟩]; rfl
      · rw [hinv, refreshedCell, if_pos ⟨h1, h2, Or.inr (Or.inr rfl)⟩]; rfl
    · intro r j h
      rw [hinv, refreshedCell, if_neg]
      omega
  · intro m hm hlt
    obtain ⟨s2, hl2, hinv, hrun⟩ := runBatches_prefix fetch K sheet m 0 none sheet hlen
      (refreshedCell_zero fetch sheet) (by simp) (by omega)
    refine ⟨s2, hl2, ?_, ?_⟩
    · rw [hrun, if_neg (by omega)]; simp
    · intro r j
      rw [hinv]; simp

/-- The pass over a catalog of 201 data rows: two invocations, the first of
which leaves the cursor at 200; every data row ends with the fetched prices. -/
theorem batch_pass_witness :
    (∃ sheet2, sheet2.length = 201 + 1 ∧
      runBatches constantFetch ((201 + BATCH_SIZE - 1) / BATCH_SIZE) ⟨none, some catalog201⟩ =
        some (⟨none, some sheet2⟩, List.range' 2 201) ∧
      (∀ r, 1 ≤ r → r ≤ 201 →
        cellAt (rowAt sheet2 r) 6 = (constantFetch (cellAt (rowAt catalog201 r) 11)).low ∧
        cellAt (rowAt sheet2 r) 7 = (constantFetch (cellAt (rowAt catalog201 r) 11)).avg ∧
        cellAt (rowAt sheet2 r) 8 = (constantFetch (cellAt (rowAt catalog201 r) 11)).market) ∧
      (∀ r j, r = 0 ∨ 201 < r ∨ (j ≠ 6 ∧ j ≠ 7 ∧ j ≠ 8) →
        cellAt (rowAt sheet2 r) j = cellAt (rowAt catalog201 r) j)) ∧
    (∀ m, 0 < m → m < (201 + BATCH_SIZE - 1) / BATCH_SIZE →
      ∃ sheet2, sheet2.length = 201 + 1 ∧
        runBatches constantFetch m ⟨none, some catalog201⟩ =
          some (⟨some (BATCH_SIZE * m), some sheet2⟩, List.range' 2 (BATCH_SIZE * m)) ∧
        (∀ r j, cellAt (rowAt sheet2 r) j =
          refreshedCell constantFetch catalog201 (BATCH_SIZE * m) r j)) :=
  batch_pass_refreshes_each_row_once constantFetch catalog201 201 (by decide)
    (by rw [catalog201, List.length_cons, List.length_replicate])

/-! ## Structured reconciliation: the writes of a run -/

theorem applyWrites_append (sh : Sheet) (ws vs : List Write) :
    applyWrites sh (ws ++ vs) = applyWrites (applyWrites sh ws) vs := by
  simp [applyWrites, List.foldl_append]

theorem applyWrites_cons (sh : Sheet) (w : Write) (ws : List Write) :
    applyWrites sh (w :: ws) = applyWrites (setValue sh w.1 w.2.1 w.2.2) ws := rfl

theorem applyUpdate_eq (sh : Sheet) (r : Nat) (price qty : Cell) :
    applyUpdate sh r price qty = applyWrites sh (recordWrites r price qty) := by
  unfold applyUpdate recordWrites
  by_cases hp : truthy price = true <;> by_cases hq : truthy qty = true <;>
    simp [hp, hq, applyWrites]

theorem processRow_eq (ix : Columns) (regMap signedMap : List (String × Nat))
    (st : LedgerState) (row : Row) :
    processRow ix regMap signedMap st row =
      ⟨applyWrites st.regular (ledgerWrites ix false regMap row),
        applyWrites st.signed (ledgerWrites ix true signedMap row),
        st.updatedCount + countOf ix regMap signedMap row⟩ := by
  cases st
  unfold processRow ledgerWrites countOf hasKey
  by_cases h1 : truthy (setCodeOf ix row) = true <;>
    by_cases h2 : truthy (numberOf ix row) = true <;>
    by_cases h3 : signedOf ix row = true <;>
    simp only [h1, h2, h3, Bool.not_true, Bool.not_false, Bool.or_false, Bool.or_true,
      Bool.and_true, Bool.and_false, Bool.false_and, Bool.true_and, if_true, if_false,
      Bool.false_eq_true, beq_self_eq_true, Bool.not_eq_true, applyWrites, List.foldl_nil,
      Nat.add_zero] <;>
    try rfl
  · cases hs : List.lookup (keyOf ix row) signedMap <;> simp [applyUpdate_eq, applyWrites]
  · cases hr : List.lookup (keyOf ix row) regMap <;> simp [applyUpdate_eq, applyWrites]

theorem foldl_processRow_eq (ix : Columns) (regMap signedMap : List (String × Nat))
    (data : List Row) (st : LedgerState) :
    data.foldl (processRow ix regMap signedMap) st =
      ⟨applyWrites st.regular (data.flatMap (ledgerWrites ix false regMap)),
        applyWrites st.signed (data.flatMap (ledgerWrites ix true signedMap)),
        st.updatedCount + (data.map (countOf ix regMap signedMap)).sum⟩ := by
  induction data generalizing st with
  | nil => cases st; simp [applyWrites]
  | cons row rest ih =>
    rw [List.foldl_cons, ih, processRow_eq]
    simp only [List.flatMap_cons, applyWrites_append, List.map_cons, List.sum_cons, Nat.add_assoc]

theorem setValue_applyWrites_setValue (ws : List Write) :
    ∀ (sh : Sheet) (r c : Nat) (v : Cell),
      setValue (applyWrites (setValue sh r c v) ws) r c v =
        setValue (applyWrites sh ws) r c v := by
  induction ws with
  | nil => intro sh r c v; simp [applyWrites, setValue_setValue_same]
  | cons u us ih =>
    intro sh r c v
    rw [applyWrites_cons, applyWrites_cons]
    by_cases h : r = u.1 ∧ c = u.2.1
    · rw [h.1, h.2, setValue_setValue_same]
    · have h2 : r ≠ u.1 ∨ c ≠ u.2.1 := by
        by_cases hr : r = u.1
        · exact Or.inr fun hc => h ⟨hr, hc⟩
        · exact Or.inl hr
      rw [setValue_comm sh v u.2.2 h2, ih]

theorem applyWrites_idem (ws : List Write) (sh : Sheet) :
    applyWrites (applyWrites sh ws) ws = applyWrites sh ws := by
  induction ws using List.reverseRecOn generalizing sh with
  | nil => rfl
  | append_singleton ws w ih =>
    have e : ∀ s : Sheet, applyWrites s (ws ++ [w]) = setValue (applyWrites s ws) w.1 w.2.1 w.2.2 := by
      intro s; rw [applyWrites_append]; rfl
    rw [e, e, setValue_applyWrites_setValue, ih]

/-! ## Structured reconciliation: the key maps -/

theorem lookup_buildMapLoop (key : String) (r : Nat) (rows : List Row) :
    ∀ (i : Nat) (m : List (String × Nat)), (buildMapLoop rows i m).lookup key = some r →
      m.lookup key = some r ∨
        (i + 1 ≤ r ∧ r ≤ i + rows.length ∧ rowKey (rows.getD (r - i - 1) []) = key) := by
  induction rows with
  | nil => intro i m h; exact Or.inl h
  | cons row rest ih =>
    intro i m h
    rcases ih (i + 1) _ h with h1 | ⟨h1, h2, h3⟩
    · rw [List.lookup_cons] at h1
      by_cases hk : key = rowKey row
      · subst hk
        simp only [beq_self_eq_true, Option.some.injEq] at h1
        subst h1
        exact Or.inr ⟨le_refl _, by simp, by simp⟩
      · have : (key == rowKey row) = false := by simpa using hk
        rw [this] at h1
        exact Or.inl h1
    · refine Or.inr ⟨by omega, by simp; omega, ?_⟩
      have e : r - i - 1 = (r - (i + 1) - 1) + 1 := by omega
      rw [e, List.getD_cons_succ]; exact h3

theorem lookup_buildMap {sh : Sheet} {key : String} {r : Nat}
    (h : (buildMap sh).lookup key = some r) :
    2 ≤ r ∧ r ≤ sh.length ∧ rowKey (rowAt sh (r - 1)) = key := by
  cases sh with
  | nil => simp [buildMap, buildMapLoop] at h
  | cons hd tl =>
    rcases lookup_buildMapLoop key r tl 1 [] h with h1 | ⟨h1, h2, h3⟩
    · simp at h1
    · refine ⟨h1, by simp; omega, ?_⟩
      have e : r - 1 = (r - 1 - 1) + 1 := by omega
      rw [rowAt, e, List.getD_cons_succ]; exact h3

theorem buildMapLoop_congr (a : List Row) :
    ∀ (b : List Row) (i : Nat) (m : List (String × Nat)), a.map rowKey = b.map rowKey →
      buildMapLoop a i m = buildMapLoop b i m := by
  induction a with
  | nil =>
    intro b i m h
    cases b with
    | nil => rfl
    | cons _ _ => simp at h
  | cons x xs ih =>
    intro b i m h
    cases b with
    | nil => simp at h
    | cons y ys =>
      simp only [List.map_cons, List.cons.injEq] at h
      simp only [buildMapLoop, h.1]
      exact ih ys _ _ h.2

theorem buildMap_congr {a b : Sheet} (h : ledgerKeys a = ledgerKeys b) :
    buildMap a = buildMap b := by
  unfold buildMap
  apply buildMapLoop_congr
  unfold ledgerKeys at h
  rw [List.map_tail, List.map_tail, h]

/-! ## Structured reconciliation: what a write leaves alone -/

theorem rowAt_eq_getElem {sh : Sheet} {i : Nat} (h : i < sh.length) : rowAt sh i = sh[i] := by
  simp [rowAt, List.getD_eq_getElem?_getD, List.getElem?_eq_getElem h]

theorem ledgerKeys_eq_of {a b : Sheet} (hl : a.length = b.length)
    (h : ∀ i, rowKey (rowAt a i) = rowKey (rowAt b i)) : ledgerKeys a = ledgerKeys b := by
  unfold ledgerKeys
  apply List.ext_getElem (by simp [hl])
  intro i h1 h2
  simp only [List.length_map] at h1 h2
  have := h i
  rw [rowAt_eq_getElem h1, rowAt_eq_getElem h2] at this
  simpa using this

theorem rowKey_setRow (row : Row) {j : Nat} (v : Cell) (hj : 2 ≤ j) :
    rowKey (setRow row j v) = rowKey row := by
  unfold rowKey
  rw [cellAt_setRow, cellAt_setRow, if_neg (by omega), if_neg (by omega)]

theorem length_applyWrites (ws : List Write) :
    ∀ sh : Sheet, WritesWithin sh.length ws → (applyWrites sh ws).length = sh.length := by
  induction ws with
  | nil => intro sh _; rfl
  | cons w ws ih =>
    intro sh h
    have hw := h w (by simp)
    have hl := length_setValue_of_le w.2.1 w.2.2 hw.2.1
    rw [applyWrites_cons, ih, hl]
    intro u hu
    rw [hl]
    exact h u (by simp [hu])

theorem rowAt_applyWrites (ws : List Write) (i : Nat) :
    ∀ sh : Sheet, (∀ w ∈ ws, w.2.1 ≠ 0 ∧ w.1 ≠ i + 1) →
      rowAt (applyWrites sh ws) i = rowAt sh i := by
  induction ws with
  | nil => intro sh _; rfl
  | cons w ws ih =>
    intro sh h
    have hw := h w (by simp)
    rw [applyWrites_cons, ih _ (fun u hu => h u (by simp [hu])),
      rowAt_setValue _ _ _ _ _ hw.1, if_neg (fun e => hw.2 e.symm)]

theorem cellAt_applyWrites (ws : List Write) (i j : Nat) :
    ∀ sh : Sheet, (∀ w ∈ ws, w.2.1 ≠ 0 ∧ (w.1 ≠ i + 1 ∨ w.2.1 ≠ j + 1)) →
      cellAt (rowAt (applyWrites sh ws) i) j = cellAt (rowAt sh i) j := by
  induction ws with
  | nil => intro sh _; rfl
  | cons w ws ih =>
    intro sh h
    have hw := h w (by simp)
    rw [applyWrites_cons, ih _ (fun u hu => h u (by simp [hu])),
      rowAt_setValue _ _ _ _ _ hw.1]
    split
    · rename_i e
      rw [cellAt_setRow, if_neg]
      rcases hw.2 with h1 | h1
      · exact absurd e.symm h1
      · omega
    · rfl

theorem rowKey_applyWrites (ws : List Write) (i : Nat) :
    ∀ sh : Sheet, (∀ w ∈ ws, w.2.1 = 5 ∨ w.2.1 = 10) →
      rowKey (rowAt (applyWrites sh ws) i) = rowKey (rowAt sh i) := by
  intro sh h
  unfold rowKey
  rw [cellAt_applyWrites ws i 0 sh (fun w hw => by have := h w hw; omega),
    cellAt_applyWrites ws i 1 sh (fun w hw => by have := h w hw; omega)]

theorem ledgerKeys_applyWrites (ws : List Write) (sh : Sheet) (h : WritesWithin sh.length ws) :
    ledgerKeys (applyWrites sh ws) = ledgerKeys sh :=
  ledgerKeys_eq_of (length_applyWrites ws sh h)
    (fun i => rowKey_applyWrites ws i sh (fun w hw => (h w hw).2.2))

theorem recordWrites_mem {r : Nat} {price qty : Cell} {w : Write}
    (h : w ∈ recordWrites r price qty) :
    w.1 = r ∧ ((w.2.1 = 5 ∧ w.2.2 = price ∧ truthy price = true) ∨
      (w.2.1 = 10 ∧ w.2.2 = qty ∧ truthy qty = true)) := by
  unfold recordWrites at h
  rw [List.mem_append] at h
  rcases h with h | h
  · split at h
    · rename_i hp; simp at h; subst h; exact ⟨rfl, Or.inl ⟨rfl, rfl, hp⟩⟩
    · simp at h
  · split at h
    · rename_i hq; simp at h; subst h; exact ⟨rfl, Or.inr ⟨rfl, rfl, hq⟩⟩
    · simp at h

theorem ledgerWrites_mem {ix : Columns} {forSigned : Bool} {map : List (String × Nat)}
    {row : Row} {w : Write} (h : w ∈ ledgerWrites ix forSigned map row) :
    hasKey ix row = true ∧ signedOf ix row = forSigned ∧
      map.lookup (keyOf ix row) = some w.1 ∧
      ((w.2.1 = 5 ∧ w.2.2 = priceOf ix row ∧ truthy (priceOf ix row) = true) ∨
        (w.2.1 = 10 ∧ w.2.2 = qtyOf ix row ∧ truthy (qtyOf ix row) = true)) := by
  unfold ledgerWrites at h
  split at h
  · rename_i hg
    simp only [Bool.and_eq_true, beq_iff_eq] at hg
    split at h
    · rename_i r hr
      have := recordWrites_mem h
      exact ⟨hg.1, hg.2, by rw [hr, this.1], this.2⟩
    · simp at h
  · simp at h

theorem writesWithin_flatMap (ix : Columns) (forSigned : Bool) (sh : Sheet) (data : List Row) :
    WritesWithin sh.length (data.flatMap (ledgerWrites ix forSigned (buildMap sh))) := by
  intro w hw
  rw [List.mem_flatMap] at hw
  obtain ⟨row, _, hrow⟩ := hw
  have h := ledgerWrites_mem hrow
  have hl := lookup_buildMap h.2.2.1
  refine ⟨hl.1, hl.2.1, ?_⟩
  rcases h.2.2.2 with h5 | h10
  · exact Or.inl h5.1
  · exact Or.inr h10.1

/-! ## Structured reconciliation: a whole run -/

theorem updateQuantitiesFromImport_some {ss : Spreadsheet} {data : Sheet}
    (hI : ss.inventoryImport = some data) :
    updateQuantitiesFromImport ss =
      if data.length ≤ 1 then (ss, .noData)
      else if (importColumns data).missingRequired then (ss, .missingColumns)
      else
        match ss.regular, ss.signed with
        | some regData, some signedData =>
          let st := data.tail.foldl
            (processRow (importColumns data) (buildMap regData) (buildMap signedData))
            ⟨regData, signedData, 0⟩
          ({ ss with regular := some st.regular, signed := some st.signed },
            .updated st.updatedCount)
        | _, _ => (ss, .missingLedger) := by
  unfold updateQuantitiesFromImport
  rw [hI]
  rfl

theorem updateQuantitiesFromImport_eq {ss : Spreadsheet} {data reg sgn : Sheet}
    (hI : ss.inventoryImport = some data) (hlen : 1 < data.length)
    (hcols : (importColumns data).missingRequired = false)
    (hR : ss.regular = some reg) (hS : ss.signed = some sgn) :
    updateQuantitiesFromImport ss =
      ({ ss with
          regular := some (applyWrites reg
            (data.tail.flatMap (ledgerWrites (importColumns data) false (buildMap reg))))
          signed := some (applyWrites sgn
            (data.tail.flatMap (ledgerWrites (importColumns data) true (buildMap sgn)))) },
        .updated (data.tail.map
          (countOf (importColumns data) (buildMap reg) (buildMap sgn))).sum) := by
  have hl : ¬ data.length ≤ 1 := by omega
  rw [updateQuantitiesFromImport_some hI, if_neg hl, hcols, hR, hS]
  simp only [Bool.false_eq_true, if_false, foldl_processRow_eq, Nat.zero_add]

theorem updateQuantitiesFromImport_cases (ss : Spreadsheet) :
    ((updateQuantitiesFromImport ss).1 = ss ∧ (updateQuantitiesFromImport ss).2.aborted = true) ∨
      ∃ data reg sgn, ss.inventoryImport = some data ∧ 1 < data.length ∧
        (importColumns data).missingRequired = false ∧ ss.regular = some reg ∧
        ss.signed = some sgn := by
  cases hI : ss.inventoryImport with
  | none =>
    left
    unfold updateQuantitiesFromImport
    rw [hI]
    exact ⟨rfl, rfl⟩
  | some data =>
    rw [updateQuantitiesFromImport_some hI]
    by_cases hl : data.length ≤ 1
    · left; rw [if_pos hl]; exact ⟨rfl, rfl⟩
    · rw [if_neg hl]
      by_cases hc : (importColumns data).missingRequired = true
      · left; rw [if_pos hc]; exact ⟨rfl, rfl⟩
      · rw [if_neg hc]
        cases hR : ss.regular with
        | none => left; exact ⟨rfl, rfl⟩
        | some reg =>
          cases hS : ss.signed with
          | none => left; exact ⟨rfl, rfl⟩
          | some sgn =>
            right
            exact ⟨data, reg, sgn, rfl, by omega, by simpa using hc, rfl, rfl⟩

/-- C3. Applying `updateQuantitiesFromImport` a second time, the import table
being the same, leaves both ledgers (and every other sheet, and the reported
count) exactly as the first application left them.  This holds for every
spreadsheet, in particular when the header resolves all mandatory columns. -/
theorem updateQuantitiesFromImport_idempotent (ss : Spreadsheet) :
    updateQuantitiesFromImport (updateQuantitiesFromImport ss).1 =
      updateQuantitiesFromImport ss := by
  rcases updateQuantitiesFromImport_cases ss with ⟨h, _⟩ | ⟨data, reg, sgn, hI, hlen, hc, hR, hS⟩
  · rw [h]
  · have h1 := updateQuantitiesFromImport_eq hI hlen hc hR hS
    have kR := ledgerKeys_applyWrites _ reg
      (writesWithin_flatMap (importColumns data) false reg data.tail)
    have kS := ledgerKeys_applyWrites _ sgn
      (writesWithin_flatMap (importColumns data) true sgn data.tail)
    have mR := buildMap_congr kR
    have mS := buildMap_congr kS
    rw [h1]
    have h2 := @updateQuantitiesFromImport_eq
      { ss with
          regular := some (applyWrites reg
            (data.tail.flatMap (ledgerWrites (importColumns data) false (buildMap reg))))
          signed := some (applyWrites sgn
            (data.tail.flatMap (ledgerWrites (importColumns data) true (buildMap sgn)))) }
      data _ _ hI hlen hc rfl rfl
    rw [h2, mR, mS, applyWrites_idem, applyWrites_idem]

/-! ## Structured reconciliation: one import record -/

theorem priceOf_blank {ix : Columns} {row : Row}
    (h : cellAt row ix.priceIdx.toNat = .str "") : priceOf ix row = .num 0 := by
  unfold priceOf; rw [h]; decide

theorem qtyOf_blank {ix : Columns} {row : Row}
    (h : cellAt row ix.qtyIdx.toNat = .str "") : qtyOf ix row = .num 0 := by
  unfold qtyOf; rw [h]; split <;> decide

theorem qtyOf_absent {ix : Columns} {row : Row} (h : ix.qtyIdx = -1) :
    qtyOf ix row = .num 0 := by
  unfold qtyOf; rw [if_neg (by simp [h])]

theorem cellAt_ledgerWrites {ix : Columns} {forSigned : Bool} {map : List (String × Nat)}
    {row : Row} (sh : Sheet) (i j : Nat)
    (h : (j = 4 → truthy (priceOf ix row) = false) ∧ (j = 9 → truthy (qtyOf ix row) = false)) :
    cellAt (rowAt (applyWrites sh (ledgerWrites ix forSigned map row)) i) j =
      cellAt (rowAt sh i) j := by
  apply cellAt_applyWrites
  intro w hw
  have hm := (ledgerWrites_mem hw).2.2.2
  rcases hm with ⟨h5, _, hp⟩ | ⟨h10, _, hq⟩
  · refine ⟨by omega, Or.inr ?_⟩
    intro e
    have : j = 4 := by omega
    rw [h.1 this] at hp
    exact Bool.false_ne_true hp
  · refine ⟨by omega, Or.inr ?_⟩
    intro e
    have : j = 9 := by omega
    rw [h.2 this] at hq
    exact Bool.false_ne_true hq

/-- C2. Processing one import record never overwrites with zero or blank.
When its price field is blank or parses to 0, every cell of both ledgers
other than the quantity column (column 10) keeps its previous value, so no
price cell changes; when its quantity field is blank or parses to 0, or the
quantity column is absent, every cell of both ledgers other than column 5
(where the code writes the price) keeps its previous value, so no
quantityOwned cell changes. -/
theorem processRow_keeps_cells_on_blank_or_zero (ix : Columns)
    (regMap signedMap : List (String × Nat)) (st : LedgerState) (row : Row) :
    ((cellAt row ix.priceIdx.toNat = .str "" ∨ priceOf ix row = .num 0) →
      ∀ i j, j ≠ 9 →
        cellAt (rowAt (processRow ix regMap signedMap st row).regular i) j =
            cellAt (rowAt st.regular i) j ∧
          cellAt (rowAt (processRow ix regMap signedMap st row).signed i) j =
            cellAt (rowAt st.signed i) j) ∧
    ((ix.qtyIdx = -1 ∨ cellAt row ix.qtyIdx.toNat = .str "" ∨ qtyOf ix row = .num 0) →
      ∀ i j, j ≠ 4 →
        cellAt (rowAt (processRow ix regMap signedMap st row).regular i) j =
            cellAt (rowAt st.regular i) j ∧
          cellAt (rowAt (processRow ix regMap signedMap st row).signed i) j =
            cellAt (rowAt st.signed i) j) := by
  rw [processRow_eq]
  constructor
  · intro h i j hj
    have hp : priceOf ix row = .num 0 := h.elim priceOf_blank id
    have ht : truthy (priceOf ix row) = false := by rw [hp]; decide
    exact ⟨cellAt_ledgerWrites _ i j ⟨fun _ => ht, fun e => absurd e hj⟩,
      cellAt_ledgerWrites _ i j ⟨fun _ => ht, fun e => absurd e hj⟩⟩
  · intro h i j hj
    have hq : qtyOf ix row = .num 0 := by
      rcases h with h | h | h
      · exact qtyOf_absent h
      · exact qtyOf_blank h
      · exact h
    have ht : truthy (qtyOf ix row) = false := by rw [hq]; decide
    exact ⟨cellAt_ledgerWrites _ i j ⟨fun e => absurd e hj, fun _ => ht⟩,
      cellAt_ledgerWrites _ i j ⟨fun e => absurd e hj, fun _ => ht⟩⟩

/-- The import row of the example with a blank price changes no cell outside
column 10. -/
theorem processRow_blank_price_witness :
    ∀ i j, j ≠ 9 →
      cellAt (rowAt (processRow (importColumns specImport) (buildMap specRegular)
          (buildMap specSigned) specLedgers specRowBlankPrice).regular i) j =
        cellAt (rowAt specLedgers.regular i) j ∧
      cellAt (rowAt (processRow (importColumns specImport) (buildMap specRegular)
          (buildMap specSigned) specLedgers specRowBlankPrice).signed i) j =
        cellAt (rowAt specLedgers.signed i) j :=
  (processRow_keeps_cells_on_blank_or_zero (importColumns specImport) (buildMap specRegular)
    (buildMap specSigned) specLedgers specRowBlankPrice).1 (Or.inl (by decide))

/-- C4 (the code at the input of the example). The import row is applied to
the Unsigned NEO-42 row and counted; its quantity cell becomes 2, but the
price 4 lands in column 5, the "Release Date" column of the ledger layout,
and the "Market Price" cell stays 0.  The Signed ledger is unchanged. -/
theorem spec_example_price_lands_in_release_date :
    (updateQuantitiesFromImport specSpreadsheet).2 = .updated 1 ∧
    (updateQuantitiesFromImport specSpreadsheet).1.regular = some [ledgerHeader,
      [.str "NEO", .num 42, .str "Some Card", .str "An Artist", .num 4, .str "Regular",
        .num 0, .num 0, .num 0, .num 2, .num 0, .str "id-1"]] ∧
    (updateQuantitiesFromImport specSpreadsheet).1.signed = some specSigned ∧
    ledgerColumn "Release Date" = 4 ∧ ledgerColumn "Market Price" = 8 ∧
    ledgerColumn "Quantity Owned" = 9 ∧
    (∀ reg, (updateQuantitiesFromImport specSpreadsheet).1.regular = some reg →
      cellAt (rowAt reg 1) (ledgerColumn "Market Price") = .num 0 ∧
      cellAt (rowAt reg 1) (ledgerColumn "Release Date") = .num 4 ∧
      cellAt (rowAt reg 1) (ledgerColumn "Quantity Owned") = .num 2) := by
  have h : (updateQuantitiesFromImport specSpreadsheet).1.regular = some [ledgerHeader,
      [.str "NEO", .num 42, .str "Some Card", .str "An Artist", .num 4, .str "Regular",
        .num 0, .num 0, .num 0, .num 2, .num 0, .str "id-1"]] := by decide
  refine ⟨by decide, h, by decide, by decide, by decide, by decide, ?_⟩
  intro reg hreg
  rw [h] at hreg
  injection hreg with hreg
  subst hreg
  decide

/-! ## Structured reconciliation: frame of a run -/

theorem ledgers_after_update (ss : Spreadsheet) :
    ((updateQuantitiesFromImport ss).1 = ss) ∨
      ∃ data reg sgn, ss.inventoryImport = some data ∧ ss.regular = some reg ∧
        ss.signed = some sgn ∧
        (updateQuantitiesFromImport ss).1.regular = some (applyWrites reg
          (data.tail.flatMap (ledgerWrites (importColumns data) false (buildMap reg)))) ∧
        (updateQuantitiesFromImport ss).1.signed = some (applyWrites sgn
          (data.tail.flatMap (ledgerWrites (importColumns data) true (buildMap sgn)))) := by
  rcases updateQuantitiesFromImport_cases ss with ⟨h, _⟩ | ⟨data, reg, sgn, hI, hlen, hc, hR, hS⟩
  · exact Or.inl h
  · right
    refine ⟨data, reg, sgn, hI, hR, hS, ?_, ?_⟩ <;>
      rw [updateQuantitiesFromImport_eq hI hlen hc hR hS]

theorem rowAt_unchanged_of_no_key {ix : Columns} {forSigned : Bool} {sh : Sheet}
    {data : List Row} {i : Nat}
    (h : ∀ row ∈ data, signedOf ix row = forSigned → keyOf ix row ≠ rowKey (rowAt sh i)) :
    rowAt (applyWrites sh (data.flatMap (ledgerWrites ix forSigned (buildMap sh)))) i =
      rowAt sh i := by
  apply rowAt_applyWrites
  intro w hw
  rw [List.mem_flatMap] at hw
  obtain ⟨row, hrow, hmem⟩ := hw
  have hm := ledgerWrites_mem hmem
  have hl := lookup_buildMap hm.2.2.1
  refine ⟨?_, ?_⟩
  · rcases hm.2.2.2 with h5 | h10
    · omega
    · omega
  · intro e
    have e2 : w.1 - 1 = i := by omega
    rw [e2] at hl
    exact h row hrow hm.2.1 hl.2.2.symm

/-- C5. Structured reconciliation creates no ledger row and touches only
rows located by exact key.  After a run both ledgers have the same rows'
keys, in the same number and order; a ledger row whose key is the key of
no import record routed to that ledger is unchanged; a record that is not
signed leaves the Signed ledger as it is and a signed one leaves the
Unsigned ledger as it is; a record whose key is in neither map leaves the
state as it is, and the batch goes on as if the record were not there. -/
theorem reconciliation_touches_only_keyed_rows :
    (∀ ss : Spreadsheet,
      (updateQuantitiesFromImport ss).1.regular.map ledgerKeys = ss.regular.map ledgerKeys ∧
      (updateQuantitiesFromImport ss).1.signed.map ledgerKeys = ss.signed.map ledgerKeys ∧
      (updateQuantitiesFromImport ss).1.regular.map List.length = ss.regular.map List.length ∧
      (updateQuantitiesFromImport ss).1.signed.map List.length = ss.signed.map List.length) ∧
    (∀ (ss : Spreadsheet) (data reg reg2 : Sheet) (i : Nat),
      ss.inventoryImport = some data → ss.regular = some reg →
      (updateQuantitiesFromImport ss).1.regular = some reg2 →
      (∀ row ∈ data.tail, signedOf (importColumns data) row = false →
        keyOf (importColumns data) row ≠ rowKey (rowAt reg i)) →
      rowAt reg2 i = rowAt reg i) ∧
    (∀ (ss : Spreadsheet) (data sgn sgn2 : Sheet) (i : Nat),
      ss.inventoryImport = some data → ss.signed = some sgn →
      (updateQuantitiesFromImport ss).1.signed = some sgn2 →
      (∀ row ∈ data.tail, signedOf (importColumns data) row = true →
        keyOf (importColumns data) row ≠ rowKey (rowAt sgn i)) →
      rowAt sgn2 i = rowAt sgn i) ∧
    (∀ (ix : Columns) (regMap signedMap : List (String × Nat)) (st : LedgerState) (row : Row),
      (signedOf ix row = false → (processRow ix regMap signedMap st row).signed = st.signed) ∧
      (signedOf ix row = true → (processRow ix regMap signedMap st row).regular = st.regular)) ∧
    (∀ (ix : Columns) (regMap signedMap : List (String × Nat)) (st : LedgerState) (row : Row),
      regMap.lookup (keyOf ix row) = none → signedMap.lookup (keyOf ix row) = none →
      processRow ix regMap signedMap st row = st ∧
      ∀ before after : List Row,
        (before ++ row :: after).foldl (processRow ix regMap signedMap) st =
          (before ++ after).foldl (processRow ix regMap signedMap) st) := by
  refine ⟨?_, ?_, ?_, ?_, ?_⟩
  · intro ss
    rcases ledgers_after_update ss with h | ⟨data, reg, sgn, hI, hR, hS, hR2, hS2⟩
    · rw [h]; exact ⟨rfl, rfl, rfl, rfl⟩
    · have wR := writesWithin_flatMap (importColumns data) false reg data.tail
      have wS := writesWithin_flatMap (importColumns data) true sgn data.tail
      rw [hR2, hS2, hR, hS]
      simp only [Option.map_some', ledgerKeys_applyWrites _ _ wR, ledgerKeys_applyWrites _ _ wS,
        length_applyWrites _ _ wR, length_applyWrites _ _ wS, and_self]
  · intro ss data reg reg2 i hI hR hR2 hkey
    rcases ledgers_after_update ss with h | ⟨data2, reg0, sgn, hI2, hR0, hS, hR3, _⟩
    · rw [h, hR] at hR2
      injection hR2 with e
      rw [e]
    · rw [hI] at hI2; injection hI2 with e1; subst e1
      rw [hR] at hR0; injection hR0 with e2; subst e2
      rw [hR3] at hR2; injection hR2 with e3
      rw [← e3]
      exact rowAt_unchanged_of_no_key hkey
  · intro ss data sgn sgn2 i hI hS hS2 hkey
    rcases ledgers_after_update ss with h | ⟨data2, reg, sgn0, hI2, hR, hS0, _, hS3⟩
    · rw [h, hS] at hS2
      injection hS2 with e
      rw [e]
    · rw [hI] at hI2; injection hI2 with e1; subst e1
      rw [hS] at hS0; injection hS0 with e2; subst e2
      rw [hS3] at hS2; injection hS2 with e3
      rw [← e3]
      exact rowAt_unchanged_of_no_key hkey
  · intro ix regMap signedMap st row
    rw [processRow_eq]
    constructor
    · intro h; simp [ledgerWrites, h, applyWrites]
    · intro h; simp [ledgerWrites, h, applyWrites]
  · intro ix regMap signedMap st row h1 h2
    have hst : processRow ix regMap signedMap st row = st := by
      rw [processRow_eq]
      cases st
      simp [ledgerWrites, countOf, h1, h2, applyWrites]
    refine ⟨hst, ?_⟩
    intro before after
    rw [List.foldl_append, List.foldl_cons, List.foldl_append]
    have : processRow ix regMap signedMap
        (List.foldl (processRow ix regMap signedMap) st before) row =
        List.foldl (processRow ix regMap signedMap) st before := by
      rw [processRow_eq]
      cases List.foldl (processRow ix regMap signedMap) st before
      simp [ledgerWrites, countOf, h1, h2, applyWrites]
    rw [this]

/-- An import row keyed XYZ-7, which neither ledger of the example holds,
leaves the ledgers as they are. -/
theorem unknown_key_witness :
    processRow (importColumns specImport) (buildMap specRegular) (buildMap specSigned)
        specLedgers specRowUnknownKey = specLedgers ∧
      ∀ before after : List Row,
        (before ++ specRowUnknownKey :: after).foldl
            (processRow (importColumns specImport) (buildMap specRegular) (buildMap specSigned))
            specLedgers =
          (before ++ after).foldl
            (processRow (importColumns specImport) (buildMap specRegular) (buildMap specSigned))
            specLedgers :=
  reconciliation_touches_only_keyed_rows.2.2.2.2 (importColumns specImport)
    (buildMap specRegular) (buildMap specSigned) specLedgers specRowUnknownKey
    (by decide) (by decide)

theorem missingRequired_iff (ix : Columns) :
    ix.missingRequired = true ↔
      (ix.codeIdx = -1 ∨ ix.numIdx = -1 ∨ ix.sigIdx = -1 ∨ ix.priceIdx = -1) := by
  simp [Columns.missingRequired, or_assoc]

theorem cellAt_setValue_same (sh : Sheet) (r c : Nat) (v : Cell) (hr : 1 ≤ r) (hc : 1 ≤ c) :
    cellAt (rowAt (setValue sh r c v) (r - 1)) (c - 1) = v := by
  rw [rowAt_setValue _ _ _ _ _ (by omega), if_pos (by omega), cellAt_setRow, if_pos rfl]

theorem price_written_by_last_record {ix : Columns} {forSigned : Bool} {sh : Sheet}
    {before : List Row} {row : Row} {r : Nat}
    (hk : hasKey ix row = true) (hs : signedOf ix row = forSigned)
    (hp : truthy (priceOf ix row) = true) (hq : qtyOf ix row = .num 0)
    (hl : (buildMap sh).lookup (keyOf ix row) = some r) :
    cellAt (rowAt (applyWrites sh
      ((before ++ [row]).flatMap (ledgerWrites ix forSigned (buildMap sh)))) (r - 1)) 4 =
        priceOf ix row := by
  have hr := (lookup_buildMap hl).1
  have hw : ledgerWrites ix forSigned (buildMap sh) row = [(r, 5, priceOf ix row)] := by
    have hq2 : truthy (qtyOf ix row) = false := by rw [hq]; decide
    simp [ledgerWrites, hk, hs, hl, recordWrites, hp, hq2]
  rw [List.flatMap_append, applyWrites_append]
  simp only [List.flatMap_cons, List.flatMap_nil, List.append_nil, hw]
  exact cellAt_setValue_same _ r 5 _ (by omega) (by omega)

/-- C7. With an import sheet that has data rows and both ledgers present,
`updateQuantitiesFromImport` aborts exactly when one of the four mandatory
columns (code, number, signature, price) resolves to -1, and an aborted run
leaves the spreadsheet as it was.  When all four resolve and only the
quantity column is unresolved, the run does not abort, no cell of column 10
(quantityOwned) changes in either ledger, and the price write still happens:
the price of the last import record, when non-zero and routed to a ledger
row, is in that row's column 5 afterwards. -/
theorem unresolved_schema_aborts_whole_import (ss : Spreadsheet) (data reg sgn : Sheet)
    (hI : ss.inventoryImport = some data) (hlen : 1 < data.length)
    (hR : ss.regular = some reg) (hS : ss.signed = some sgn) :
    ((updateQuantitiesFromImport ss).2.aborted = true ↔
      ((importColumns data).codeIdx = -1 ∨ (importColumns data).numIdx = -1 ∨
        (importColumns data).sigIdx = -1 ∨ (importColumns data).priceIdx = -1)) ∧
    ((updateQuantitiesFromImport ss).2.aborted = true → (updateQuantitiesFromImport ss).1 = ss) ∧
    (¬ ((importColumns data).codeIdx = -1 ∨ (importColumns data).numIdx = -1 ∨
        (importColumns data).sigIdx = -1 ∨ (importColumns data).priceIdx = -1) →
      (importColumns data).qtyIdx = -1 →
      (updateQuantitiesFromImport ss).2.aborted = false ∧
      ∃ reg2 sgn2, (updateQuantitiesFromImport ss).1.regular = some reg2 ∧
        (updateQuantitiesFromImport ss).1.signed = some sgn2 ∧
        (∀ i, cellAt (rowAt reg2 i) 9 = cellAt (rowAt reg i) 9 ∧
          cellAt (rowAt sgn2 i) 9 = cellAt (rowAt sgn i) 9) ∧
        (∀ (before : List Row) (row : Row) (r : Nat), data.tail = before ++ [row] →
          hasKey (importColumns data) row = true →
          truthy (priceOf (importColumns data) row) = true →
          (signedOf (importColumns data) row = false →
            (buildMap reg).lookup (keyOf (importColumns data) row) = some r →
            cellAt (rowAt reg2 (r - 1)) 4 = priceOf (importColumns data) row) ∧
          (signedOf (importColumns data) row = true →
            (buildMap sgn).lookup (keyOf (importColumns data) row) = some r →
            cellAt (rowAt sgn2 (r - 1)) 4 = priceOf (importColumns data) row))) := by
  have hl : ¬ data.length ≤ 1 := by omega
  refine ⟨?_, ?_, ?_⟩
  · rw [← missingRequired_iff]
    by_cases hc : (importColumns data).missingRequired = true
    · rw [updateQuantitiesFromImport_some hI, if_neg hl, if_pos hc]
      simp [hc, Outcome.aborted]
    · have hc2 : (importColumns data).missingRequired = false := by simpa using hc
      rw [updateQuantitiesFromImport_eq hI hlen hc2 hR hS]
      simp [hc2, Outcome.aborted]
  · intro ha
    rcases updateQuantitiesFromImport_cases ss with ⟨h, _⟩ | ⟨d, r, s, h1, h2, h3, h4, h5⟩
    · exact h
    · rw [updateQuantitiesFromImport_eq h1 h2 h3 h4 h5] at ha
      simp [Outcome.aborted] at ha
  · intro hreq hqty
    have hc2 : (importColumns data).missingRequired = false := by
      have := (missingRequired_iff (importColumns data)).not.2 hreq
      simpa using this
    rw [updateQuantitiesFromImport_eq hI hlen hc2 hR hS]
    refine ⟨rfl, _, _, rfl, rfl, ?_, ?_⟩
    · intro i
      constructor <;>
      · apply cellAt_applyWrites
        intro w hw
        rw [List.mem_flatMap] at hw
        obtain ⟨row, _, hmem⟩ := hw
        rcases (ledgerWrites_mem hmem).2.2.2 with h5 | ⟨_, _, hq⟩
        · exact ⟨by omega, Or.inr (by omega)⟩
        · rw [qtyOf_absent hqty] at hq
          exact absurd hq (by decide)
    · intro before row r hd hk hp
      rw [hd]
      exact ⟨fun hs hl => price_written_by_last_record hk hs hp (qtyOf_absent hqty) hl,
        fun hs hl => price_written_by_last_record hk hs hp (qtyOf_absent hqty) hl⟩

/-- The import of the example without its quantity column is not aborted. -/
theorem unresolved_schema_witness :
    (updateQuantitiesFromImport
        ⟨none, some specImportNoQty, some specRegular, some specSigned, none⟩).2.aborted = false ∧
      ∃ reg2 sgn2,
        (updateQuantitiesFromImport
          ⟨none, some specImportNoQty, some specRegular, some specSigned, none⟩).1.regular =
            some reg2 ∧
        (updateQuantitiesFromImport
          ⟨none, some specImportNoQty, some specRegular, some specSigned, none⟩).1.signed =
            some sgn2 ∧
        (∀ i, cellAt (rowAt reg2 i) 9 = cellAt (rowAt specRegular i) 9 ∧
          cellAt (rowAt sgn2 i) 9 = cellAt (rowAt specSigned i) 9) ∧
        (∀ (before : List Row) (row : Row) (r : Nat), specImportNoQty.tail = before ++ [row] →
          hasKey (importColumns specImportNoQty) row = true →
          truthy (priceOf (importColumns specImportNoQty) row) = true →
          (signedOf (importColumns specImportNoQty) row = false →
            (buildMap specRegular).lookup (keyOf (importColumns specImportNoQty) row) = some r →
            cellAt (rowAt reg2 (r - 1)) 4 = priceOf (importColumns specImportNoQty) row) ∧
          (signedOf (importColumns specImportNoQty) row = true →
            (buildMap specSigned).lookup (keyOf (importColumns specImportNoQty) row) = some r →
            cellAt (rowAt sgn2 (r - 1)) 4 = priceOf (importColumns specImportNoQty) row)) :=
  (unresolved_schema_aborts_whole_import
    ⟨none, some specImportNoQty, some specRegular, some specSigned, none⟩
    specImportNoQty specRegular specSigned rfl (by decide) rfl rfl).2.2 (by decide) (by decide)

/-! ## Free-text reconciliation -/

theorem cellAt_setValue_other (sh : Sheet) (r c i j : Nat) (v : Cell) (hc : c ≠ 0)
    (h : i + 1 ≠ r ∨ j + 1 ≠ c) :
    cellAt (rowAt (setValue sh r c v) i) j = cellAt (rowAt sh i) j := by
  rw [rowAt_setValue _ _ _ _ _ hc]
  split
  · rename_i e
    rw [cellAt_setRow, if_neg]
    rcases h with h | h
    · exact absurd e h
    · omega
  · rfl

theorem processLine_unmatched (find : TextFinder) (regularData : Sheet) (st : StagingState)
    (line : String) (h : findCardRow regularData (parseLine line).cardName = none) :
    processLine find regularData st line = st := by
  simp only [processLine, h]

theorem processLine_unsigned (find : TextFinder) (regularData : Sheet) (st : StagingState)
    (line : String) (cardRow : Row)
    (h : findCardRow regularData (parseLine line).cardName = some cardRow)
    (hg : (parseLine line).isGoldStamped = false) :
    processLine find regularData st line =
      { st with importSheet := st.importSheet ++ [stagingRow cardRow (parseLine line)] } := by
  simp only [processLine, h, hg, Bool.false_eq_true, if_false]

theorem processLine_signed (find : TextFinder) (regularData : Sheet) (st : StagingState)
    (line : String) (cardRow : Row)
    (h : findCardRow regularData (parseLine line).cardName = some cardRow)
    (hg : (parseLine line).isGoldStamped = true) :
    processLine find regularData st line =
      match st.signed with
      | some signedSheet =>
        match find signedSheet (parseLine line).cardName with
        | some r => { st with signed := some (setValue signedSheet r 10 (parseLine line).quantity) }
        | none => st
      | none => st := by
  simp only [processLine, h, hg, if_true]

/-- What the loop of `parsePriceListToInventory` writes, whatever the text
finder: the function leaves "Regular Art Cards" as it was.  Per candidate
line, when the lookup of the name returns a row: a gold-stamped record appends
no staging row, leaves the Signed sheet as it is when that sheet is missing or
the text finder finds nothing, and otherwise sets column 10 (Quantity Owned)
of the row the text finder returns to the parsed quantity, every other cell of
the sheet keeping its value; a record that is not gold-stamped appends exactly
the staging row (set, collector number, quantity, price) and leaves the
Signed sheet as it is.  When the lookup returns no row, nothing is written. -/
theorem processLine_frame (find : TextFinder) :
    (∀ ss : Spreadsheet, (parsePriceListToInventory find ss).1.regular = ss.regular) ∧
    (∀ (regularData : Sheet) (st : StagingState) (line : String) (cardRow : Row),
      findCardRow regularData (parseLine line).cardName = some cardRow →
      ((parseLine line).isGoldStamped = true →
        (processLine find regularData st line).importSheet = st.importSheet ∧
        (st.signed = none → (processLine find regularData st line).signed = none) ∧
        (∀ sh, st.signed = some sh → find sh (parseLine line).cardName = none →
          (processLine find regularData st line).signed = some sh) ∧
        (∀ sh r, st.signed = some sh → find sh (parseLine line).cardName = some r →
          (processLine find regularData st line).signed =
            some (setValue sh r 10 (parseLine line).quantity) ∧
          (∀ i j, i + 1 ≠ r ∨ j ≠ 9 →
            cellAt (rowAt (setValue sh r 10 (parseLine line).quantity) i) j =
              cellAt (rowAt sh i) j) ∧
          (1 ≤ r →
            cellAt (rowAt (setValue sh r 10 (parseLine line).quantity) (r - 1)) 9 =
              (parseLine line).quantity))) ∧
      ((parseLine line).isGoldStamped = false →
        (processLine find regularData st line).signed = st.signed ∧
        (processLine find regularData st line).importSheet =
          st.importSheet ++ [stagingRow cardRow (parseLine line)])) ∧
    (∀ (regularData : Sheet) (st : StagingState) (line : String),
      findCardRow regularData (parseLine line).cardName = none →
      processLine find regularData st line = st) := by
  refine ⟨?_, ?_, ?_⟩
  · intro ss
    unfold parsePriceListToInventory
    cases ss.rawImport with
    | none => rfl
    | some raw =>
      cases hR : ss.regular with
      | none => simp only [hR]
      | some reg => simp only [hR]
  · intro regularData st line cardRow h
    constructor
    · intro hg
      rw [processLine_signed find regularData st line cardRow h hg]
      obtain ⟨imp, sg⟩ := st
      cases sg with
      | none =>
        refine ⟨rfl, fun _ => rfl, ?_, ?_⟩
        · intro sh hs; cases hs
        · intro sh r hs; cases hs
      | some sh0 =>
        refine ⟨?_, ?_, ?_, ?_⟩
        · cases hf : find sh0 (parseLine line).cardName <;> simp only [hf]
        · intro hs; cases hs
        · intro sh hs hf
          cases hs
          simp only [hf]
        · intro sh r hs hf
          cases hs
          refine ⟨?_, ?_, ?_⟩
          · simp only [hf]
          · intro i j hij
            apply cellAt_setValue_other _ _ _ _ _ _ (by omega)
            rcases hij with h1 | h2
            · exact Or.inl h1
            · exact Or.inr (by omega)
          · intro hr
            exact cellAt_setValue_same _ r 10 _ hr (by omega)
    · intro hg
      rw [processLine_unsigned find regularData st line cardRow h hg]
      exact ⟨rfl, rfl⟩
  · intro regularData st line h
    exact processLine_unmatched find regularData st line h

/-- The price list of the example under the text finder `textFinderRow`: the
gold-stamped line sets Quantity Owned of the Signed row of the card to 3, the
line that is not gold-stamped stages one row, and the line of a card that the
catalog does not hold and the line of noise write nothing. -/
theorem parsePriceList_example :
    parsePriceListToInventory textFinderRow
        ⟨some specRawImport, none, some specRegular, some specSigned, none⟩ =
      (⟨some specRawImport, some [stagingHeader, [.str "NEO", .num 42, .num 2, .num 4]],
        some specRegular, some (setValue specSigned 2 10 (.num 3)), none⟩, .processed) := by
  decide!

/-- C11. The lookup `regularData.find` runs over every row of "Regular Art
Cards", its header row included.  The pasted line `1 Card Name Art Card $2.00`
names no catalog card (the only data row is that of "Some Card") and is not
gold-stamped; its name is the text of the header cell of the name column, the
lookup returns the header row, and the function appends the staging row
`["Set", "Collector Number", 1, 2]`, whatever the text finder, where a record
that matches no catalog name is to change nothing. -/
theorem header_row_staged_as_catalog_card :
    (parseLine specHeaderLine).cardName = "Card Name" ∧
    (parseLine specHeaderLine).isGoldStamped = false ∧
    findCardRow specRegular.tail "Card Name" = none ∧
    findCardRow specRegular "Card Name" = some ledgerHeader ∧
    ∀ find : TextFinder,
      parsePriceListToInventory find specHeaderSpreadsheet =
        (⟨some [[.str specHeaderLine]],
          some [stagingHeader, [.str "Set", .str "Collector Number", .num 1, .num 2]],
          some specRegular, some specSigned, none⟩, .processed) := by
  have hl : candidateLines [[.str specHeaderLine]] = [specHeaderLine] := by decide
  have hp : parseLine specHeaderLine = ⟨.num 1, "Card Name", .num 2, false⟩ := by decide!
  have hf : findCardRow specRegular "Card Name" = some ledgerHeader := by decide
  refine ⟨by rw [hp], by rw [hp], by decide, hf, ?_⟩
  intro find
  simp only [parsePriceListToInventory, specHeaderSpreadsheet, hl, List.foldl_cons,
    List.foldl_nil, processLine, hp, hf]
  rfl

/-! ## Collection summary: the totals object -/

theorem objectEntries_perm (obj : TotalsBySet) : (objectEntries obj).Perm obj := by
  unfold objectEntries
  exact ((List.perm_insertionSort _ _).append_right _).trans (List.filter_append_perm _ obj)

theorem lookup_isNone_iff (obj : TotalsBySet) (key : String) :
    (obj.lookup key).isNone = true ↔ key ∉ obj.map Prod.fst := by
  rw [Option.isNone_iff_eq_none, List.lookup_eq_none_iff]
  simp only [List.mem_map, not_exists, not_and, bne_iff_ne, ne_eq]
  constructor
  · intro h e he heq
    exact h e he heq.symm
  · intro h e he heq
    exact h e he heq.symm

theorem addToTotals_eq (add : ℚ → ℚ → ℚ) (obj : TotalsBySet) (row : LedgerEntry)
    (hin : toStr row.set ∉ inheritedNames) :
    addToTotals add obj row =
      (if toStr row.set ∈ obj.map Prod.fst then obj else obj ++ [(toStr row.set, ⟨0, 0⟩)]).map
        fun e => if e.1 = toStr row.set then (e.1, bump add row e.2) else e := by
  have hc : inheritedNames.contains (toStr row.set) = false := by
    rw [List.contains_eq_any_beq, List.any_eq_false]
    intro x hx hxe
    rw [beq_iff_eq] at hxe
    exact hin (hxe ▸ hx)
  unfold addToTotals
  simp only [hc, Bool.and_false, Bool.false_eq_true, if_false]
  by_cases h : toStr row.set ∈ obj.map Prod.fst
  · have : ¬ (obj.lookup (toStr row.set)).isNone = true := by
      rw [lookup_isNone_iff]; exact not_not.2 h
    simp only [this, if_false, Bool.false_eq_true, if_pos h]
    rfl
  · have : (obj.lookup (toStr row.set)).isNone = true := (lookup_isNone_iff _ _).2 h
    simp only [this, if_true, if_neg h]
    rfl

theorem map_fst_update (key : String) (g : Totals → Totals) (l : TotalsBySet) :
    (l.map fun e => if e.1 = key then (e.1, g e.2) else e).map Prod.fst = l.map Prod.fst := by
  induction l with
  | nil => rfl
  | cons e l ih =>
    simp only [List.map_cons, ih]
    split <;> rfl

theorem keys_addToTotals (add : ℚ → ℚ → ℚ) (obj : TotalsBySet) (row : LedgerEntry)
    (hin : toStr row.set ∉ inheritedNames) :
    (addToTotals add obj row).map Prod.fst = seenStep (obj.map Prod.fst) (toStr row.set) := by
  rw [addToTotals_eq add obj row hin, map_fst_update]
  unfold seenStep
  split <;> simp

theorem update_of_not_mem (key : String) (g : Totals → Totals) (l : TotalsBySet)
    (h : key ∉ l.map Prod.fst) :
    (l.map fun e => if e.1 = key then (e.1, g e.2) else e) = l := by
  induction l with
  | nil => rfl
  | cons e l ih =>
    simp only [List.map_cons, List.mem_cons, not_or] at h
    simp only [List.map_cons, ih h.2]
    rw [if_neg (fun heq => h.1 heq.symm)]

theorem sum_update (key : String) (g : Totals → Totals) (m : Totals → ℚ) (d : ℚ)
    (l : TotalsBySet) (hg : ∀ e ∈ l, e.1 = key → m (g e.2) = m e.2 + d)
    (hnd : (l.map Prod.fst).Nodup) (hmem : key ∈ l.map Prod.fst) :
    ((l.map fun e => if e.1 = key then (e.1, g e.2) else e).map fun e => m e.2).sum =
      (l.map fun e => m e.2).sum + d := by
  induction l with
  | nil => simp at hmem
  | cons e l ih =>
    simp only [List.map_cons, List.nodup_cons] at hnd
    simp only [List.map_cons, List.sum_cons]
    by_cases he : e.1 = key
    · rw [if_pos he, update_of_not_mem key g l (he ▸ hnd.1)]
      simp only [hg e (List.mem_cons_self _ _) he]
      ring
    · rw [if_neg he]
      have hm : key ∈ l.map Prod.fst := by
        simp only [List.map_cons, List.mem_cons] at hmem
        rcases hmem with h | h
        · exact absurd h.symm he
        · exact h
      rw [ih (fun x hx => hg x (List.mem_cons_of_mem _ hx)) hnd.2 hm]
      ring

theorem natural_update (key : String) (g : Totals → Totals) (m : Totals → ℚ)
    (l : TotalsBySet) (hnat : ∀ e ∈ l, ∃ k : ℕ, m e.2 = k)
    (hg : ∀ e ∈ l, e.1 = key → ∃ k : ℕ, m (g e.2) = k) :
    ∀ e ∈ (l.map fun e => if e.1 = key then (e.1, g e.2) else e), ∃ k : ℕ, m e.2 = k := by
  intro e he
  rw [List.mem_map] at he
  obtain ⟨x, hx, rfl⟩ := he
  by_cases h : x.1 = key
  · rw [if_pos h]; exact hg x hx h
  · rw [if_neg h]; exact hnat x hx

theorem sum_natural_nonneg (m : Totals → ℚ) (l : TotalsBySet)
    (hnat : ∀ e ∈ l, ∃ k : ℕ, m e.2 = k) : 0 ≤ (l.map fun e => m e.2).sum := by
  apply List.sum_nonneg
  intro x hx
  rw [List.mem_map] at hx
  obtain ⟨e, he, rfl⟩ := hx
  obtain ⟨k, hk⟩ := hnat e he
  rw [hk]
  exact Nat.cast_nonneg k

theorem natural_le_sum (m : Totals → ℚ) (l : TotalsBySet)
    (hnat : ∀ e ∈ l, ∃ k : ℕ, m e.2 = k) (e : String × Totals) (he : e ∈ l) :
    m e.2 ≤ (l.map fun e => m e.2).sum := by
  apply List.single_le_sum
  · intro x hx
    rw [List.mem_map] at hx
    obtain ⟨y, hy, rfl⟩ := hx
    obtain ⟨k, hk⟩ := hnat y hy
    rw [hk]
    exact Nat.cast_nonneg k
  · exact List.mem_map_of_mem (fun e => m e.2) he

theorem nodup_seenStep (acc : List String) (k : String) (h : acc.Nodup) :
    (seenStep acc k).Nodup := by
  unfold seenStep
  split
  · exact h
  · rename_i hk
    rw [List.nodup_append]
    refine ⟨h, List.nodup_singleton k, ?_⟩
    intro x hx hx2
    simp only [List.mem_singleton] at hx2
    exact hk (hx2 ▸ hx)

theorem sum_bump (add : ℚ → ℚ → ℚ) (m : Totals → ℚ) (d : ℕ) (row : LedgerEntry)
    (hg : ∀ (t : Totals) (k : ℕ), m t = k → k + d ≤ 2 ^ 53 →
      m (bump add row t) = ((k + d : ℕ) : ℚ))
    (l : TotalsBySet) (hnd : (l.map Prod.fst).Nodup) (hmem : toStr row.set ∈ l.map Prod.fst)
    (hnat : ∀ e ∈ l, ∃ k : ℕ, m e.2 = k)
    (hb : (l.map fun e => m e.2).sum + d ≤ 2 ^ 53) :
    (∀ e ∈ (l.map fun e => if e.1 = toStr row.set then (e.1, bump add row e.2) else e),
      ∃ k : ℕ, m e.2 = k) ∧
    ((l.map fun e => if e.1 = toStr row.set then (e.1, bump add row e.2) else e).map
      fun e => m e.2).sum = (l.map fun e => m e.2).sum + d := by
  have key : ∀ e ∈ l, ∃ k : ℕ, m e.2 = k ∧ m (bump add row e.2) = ((k + d : ℕ) : ℚ) := by
    intro e he
    obtain ⟨k, hk⟩ := hnat e he
    have hle := natural_le_sum m l hnat e he
    rw [hk] at hle
    have hkd : (k : ℚ) + d ≤ 2 ^ 53 := by linarith
    have hkd2 : k + d ≤ 2 ^ 53 := by exact_mod_cast hkd
    exact ⟨k, hk, hg e.2 k hk hkd2⟩
  constructor
  · apply natural_update _ _ m l hnat
    intro e he _
    obtain ⟨k, _, h2⟩ := key e he
    exact ⟨k + d, h2⟩
  · apply sum_update _ _ m d l _ hnd hmem
    intro e he _
    obtain ⟨k, h1, h2⟩ := key e he
    rw [h2, h1]
    push_cast
    rfl

theorem sum_addToTotals (add : ℚ → ℚ → ℚ) (m : Totals → ℚ) (d : ℕ) (row : LedgerEntry)
    (hin : toStr row.set ∉ inheritedNames) (hz : m ⟨0, 0⟩ = 0)
    (hg : ∀ (t : Totals) (k : ℕ), m t = k → k + d ≤ 2 ^ 53 →
      m (bump add row t) = ((k + d : ℕ) : ℚ))
    (obj : TotalsBySet) (hnd : (obj.map Prod.fst).Nodup)
    (hnat : ∀ e ∈ obj, ∃ k : ℕ, m e.2 = k)
    (hb : (obj.map fun e => m e.2).sum + d ≤ 2 ^ 53) :
    (∀ e ∈ addToTotals add obj row, ∃ k : ℕ, m e.2 = k) ∧
    ((addToTotals add obj row).map fun e => m e.2).sum = (obj.map fun e => m e.2).sum + d := by
  rw [addToTotals_eq add obj row hin]
  by_cases h : toStr row.set ∈ obj.map Prod.fst
  · rw [if_pos h]
    exact sum_bump add m d row hg obj hnd h hnat hb
  · rw [if_neg h]
    have hnd2 : ((obj ++ [(toStr row.set, (⟨0, 0⟩ : Totals))]).map Prod.fst).Nodup := by
      have := nodup_seenStep (obj.map Prod.fst) (toStr row.set) hnd
      simpa [seenStep, h] using this
    have hsum : ((obj ++ [(toStr row.set, (⟨0, 0⟩ : Totals))]).map fun e => m e.2).sum =
        (obj.map fun e => m e.2).sum := by
      simp [hz]
    have hnat2 : ∀ e ∈ obj ++ [(toStr row.set, (⟨0, 0⟩ : Totals))], ∃ k : ℕ, m e.2 = k := by
      intro e he
      rw [List.mem_append, List.mem_singleton] at he
      rcases he with he | he
      · exact hnat e he
      · exact ⟨0, by rw [he, hz]; simp⟩
    have := sum_bump add m d row hg (obj ++ [(toStr row.set, ⟨0, 0⟩)]) hnd2 (by simp) hnat2
      (by rw [hsum]; exact hb)
    rw [hsum] at this
    exact this

theorem sum_foldl (add : ℚ → ℚ → ℚ) (m : Totals → ℚ) (f : LedgerEntry → ℚ)
    (hz : m ⟨0, 0⟩ = 0) (rows : List LedgerEntry)
    (hin : ∀ r ∈ rows, toStr r.set ∉ inheritedNames)
    (hf : ∀ r ∈ rows, ∃ n : ℕ, f r = n)
    (hg : ∀ r ∈ rows, ∀ (t : Totals) (k n : ℕ), m t = k → f r = n → k + n ≤ 2 ^ 53 →
      m (bump add r t) = ((k + n : ℕ) : ℚ)) :
    ∀ obj : TotalsBySet, (obj.map Prod.fst).Nodup → (∀ e ∈ obj, ∃ k : ℕ, m e.2 = k) →
      (obj.map fun e => m e.2).sum + (rows.map f).sum ≤ 2 ^ 53 →
      ((rows.foldl (addToTotals add) obj).map Prod.fst).Nodup ∧
      (∀ e ∈ rows.foldl (addToTotals add) obj, ∃ k : ℕ, m e.2 = k) ∧
      ((rows.foldl (addToTotals add) obj).map fun e => m e.2).sum =
        (obj.map fun e => m e.2).sum + (rows.map f).sum := by
  induction rows with
  | nil => intro obj hnd hnat _; exact ⟨hnd, hnat, by simp⟩
  | cons row rows ih =>
    intro obj hnd hnat hb
    obtain ⟨n, hn⟩ := hf row (List.mem_cons_self _ _)
    have hrest : 0 ≤ (rows.map f).sum := by
      apply List.sum_nonneg
      intro x hx
      rw [List.mem_map] at hx
      obtain ⟨r, hr, rfl⟩ := hx
      obtain ⟨k, hk⟩ := hf r (List.mem_cons_of_mem _ hr)
      rw [hk]
      exact Nat.cast_nonneg k
    simp only [List.map_cons, List.sum_cons, hn] at hb
    have hrow := hin row (List.mem_cons_self _ _)
    obtain ⟨hnat1, hsum1⟩ := sum_addToTotals add m n row hrow hz
      (fun t k hk hle => hg row (List.mem_cons_self _ _) t k n hk hn hle) obj hnd hnat
      (by linarith)
    have hnd1 : ((addToTotals add obj row).map Prod.fst).Nodup := by
      rw [keys_addToTotals add obj row hrow]; exact nodup_seenStep _ _ hnd
    obtain ⟨hnd2, hnat2, hsum2⟩ := ih (fun r hr => hin r (List.mem_cons_of_mem _ hr))
      (fun r hr => hf r (List.mem_cons_of_mem _ hr))
      (fun r hr => hg r (List.mem_cons_of_mem _ hr)) (addToTotals add obj row) hnd1 hnat1
      (by rw [hsum1]; linarith)
    refine ⟨hnd2, hnat2, ?_⟩
    rw [List.foldl_cons, hsum2, hsum1]
    simp only [List.map_cons, List.sum_cons, hn]
    ring

theorem exact_on_naturals (add : ℚ → ℚ → ℚ) (hadd : ExactOnDyadics add) (a b : ℕ)
    (h : a + b ≤ 2 ^ 53) : add a b = ((a + b : ℕ) : ℚ) := by
  have := hadd 0 a b (by norm_num) h
  simpa using this

theorem foldl_add_exact (add : ℚ → ℚ → ℚ) (hadd : ExactOnDyadics add) (k : ℕ)
    (hk : k ≤ 1022) (f : String × Totals → ℚ) (l : TotalsBySet)
    (hnat : ∀ e ∈ l, ∃ n : ℕ, f e * 2 ^ k = n) :
    ∀ acc : ℕ, (acc : ℚ) + (l.map fun e => f e * 2 ^ k).sum ≤ 2 ^ 53 →
      l.foldl (fun sum t => add sum (f t)) ((acc : ℚ) / 2 ^ k) =
        ((acc : ℚ) + (l.map fun e => f e * 2 ^ k).sum) / 2 ^ k := by
  have hpow : (2 : ℚ) ^ k ≠ 0 := pow_ne_zero k (by norm_num)
  induction l with
  | nil => intro acc _; simp
  | cons e l ih =>
    intro acc hb
    obtain ⟨n, hn⟩ := hnat e (List.mem_cons_self _ _)
    have hrest : 0 ≤ (l.map fun e => f e * 2 ^ k).sum := by
      apply List.sum_nonneg
      intro x hx
      rw [List.mem_map] at hx
      obtain ⟨y, hy, rfl⟩ := hx
      obtain ⟨m, hm⟩ := hnat y (List.mem_cons_of_mem _ hy)
      rw [hm]
      exact Nat.cast_nonneg m
    simp only [List.map_cons, List.sum_cons, hn] at hb
    have h1 : (acc : ℚ) + n ≤ 2 ^ 53 := by linarith
    have h2 : acc + n ≤ 2 ^ 53 := by exact_mod_cast h1
    have hfe : f e = (n : ℚ) / 2 ^ k := eq_div_of_mul_eq hpow hn
    rw [List.foldl_cons, hfe, hadd k acc n hk h2,
      ih (fun x hx => hnat x (List.mem_cons_of_mem _ hx)) (acc + n) (by push_cast; linarith)]
    simp only [List.map_cons, List.sum_cons]
    rw [hn]
    push_cast
    ring

/-! ## Collection summary: grand totals -/

theorem getData_quantity (sheet : Sheet) :
    (getData sheet).map (fun r => r.quantity) = sheet.tail.map quantityOwned := by
  unfold getData
  rw [List.map_map]
  rfl

theorem getData_unsigned_value (sheet : Sheet) :
    ((getData sheet).filter fun r => !r.signed).map (fun r => r.totalValue) =
      (sheet.tail.filter fun row => !flaggedSigned row).map rowTotalValue := by
  unfold getData
  rw [List.filter_map, List.map_map]
  rfl

theorem getData_groups (regular signed : Sheet) :
    (getData regular ++ getData signed).map (fun r => toStr r.set) = groupsOf regular signed := by
  unfold getData groupsOf
  rw [List.map_append, List.map_append, List.map_map, List.map_map]
  rfl

theorem mem_getData (regular signed : Sheet) (r : LedgerEntry)
    (h : r ∈ getData regular ++ getData signed) :
    ∃ row ∈ regular.tail ++ signed.tail, toStr r.set = groupOf row ∧
      r.signed = flaggedSigned row ∧ r.quantity = quantityOwned row ∧
      r.totalValue = rowTotalValue row := by
  unfold getData at h
  rw [← List.map_append, List.mem_map] at h
  obtain ⟨row, hrow, rfl⟩ := h
  exact ⟨row, hrow, rfl, rfl, rfl, rfl⟩

theorem numberOrZero_of_num (c : Cell) (q : ℚ) (h : toNumber c = .num q) :
    numberOrZero c = q := by
  unfold numberOrZero jsOr
  rw [h]
  by_cases hq : q = 0
  · subst hq; simp [truthy]
  · simp [truthy, hq]

theorem readsDyadic_spec (k : ℕ) (c : Cell) (h : readsDyadic k c = true) :
    ∃ n : ℕ, numberOrZero c * 2 ^ k = n := by
  unfold readsDyadic at h
  split at h
  · rename_i q hq
    simp only [decide_eq_true_eq] at h
    refine ⟨(q * 2 ^ k).num.toNat, ?_⟩
    rw [numberOrZero_of_num c q hq]
    have hq0 : 0 ≤ q := Rat.num_nonneg.1 h.2
    have hqk : 0 ≤ (q * 2 ^ k).num := Rat.num_nonneg.2 (mul_nonneg hq0 (by positivity))
    have h1 : (((q * 2 ^ k).num.toNat : ℤ) : ℚ) = q * 2 ^ k := by
      rw [Int.toNat_of_nonneg hqk]
      exact Rat.coe_int_num_of_den_eq_one h.1
    exact_mod_cast h1.symm
  · exact absurd h (by simp)

theorem readsNatural_spec (c : Cell) (h : readsDyadic 0 c = true) :
    ∃ n : ℕ, numberOrZero c = n := by
  obtain ⟨n, hn⟩ := readsDyadic_spec 0 c h
  exact ⟨n, by simpa using hn⟩

theorem sum_unsigned (l : List LedgerEntry) :
    (l.map fun r => if r.signed then (0 : ℚ) else r.totalValue).sum =
      ((l.filter fun r => !r.signed).map fun r => r.totalValue).sum := by
  induction l with
  | nil => rfl
  | cons r l ih =>
    by_cases hs : r.signed = true
    · simp [List.filter_cons, hs, ih]
    · have hs2 : r.signed = false := by simpa using hs
      simp [List.filter_cons, hs2, ih]

theorem total_exact (add : ℚ → ℚ → ℚ) (hadd : ExactOnDyadics add) (k : ℕ) (hk : k ≤ 1022)
    (m : Totals → ℚ) (obj : TotalsBySet) (hnat : ∀ e ∈ obj, ∃ n : ℕ, m e.2 * 2 ^ k = n)
    (hb : (obj.map fun e => m e.2 * 2 ^ k).sum ≤ 2 ^ 53) :
    (objectEntries obj).foldl (fun sum t => add sum (m t.2)) 0 =
        ((objectEntries obj).map fun e => m e.2).sum ∧
      ((objectEntries obj).map fun e => m e.2).sum = (obj.map fun e => m e.2).sum := by
  have hpow : (2 : ℚ) ^ k ≠ 0 := pow_ne_zero k (by norm_num)
  have hperm : ((objectEntries obj).map fun e => m e.2).sum = (obj.map fun e => m e.2).sum :=
    ((objectEntries_perm obj).map _).sum_eq
  have hperm2 : ((objectEntries obj).map fun e => m e.2 * 2 ^ k).sum =
      (obj.map fun e => m e.2 * 2 ^ k).sum := ((objectEntries_perm obj).map _).sum_eq
  refine ⟨?_, hperm⟩
  have h := foldl_add_exact add hadd k hk (fun e => m e.2) (objectEntries obj)
    (fun e he => hnat e ((objectEntries_perm obj).mem_iff.1 he)) 0
    (by rw [hperm2]; simpa using hb)
  rw [List.sum_map_mul_right] at h
  simp only [Nat.cast_zero, zero_div, zero_add] at h
  rw [h, mul_div_assoc, div_self hpow, mul_one]

/-- C12 (as amended). A Set cell that reads as an inherited property name
aside, for quantities that are natural numbers with a sum of at most 2 ^ 53
and total values that are natural multiples of `1 / 2 ^ k` with a sum of at
most 2 ^ 53 such multiples (where the addition of doubles is exact): the
grand-total row of the summary holds, as quantity, the sum of the quantity
totals of the group rows, which is the sum of the quantity owned over all data
rows of both ledgers, and, as value, the sum of the value totals of the group
rows, which is the sum of the total value over the data rows that are not
flagged "Signed"; that is the sum over the rows of the Unsigned ledger when
the rows of the Unsigned ledger are not flagged "Signed" and those of the
Signed ledger are.  The quantity and the total value of a row are
`Number(x) || 0` of its cells: a number cell reads as itself, a blank cell and
a text that is no number as 0, a numeric text as its value. -/
theorem summary_grand_totals (add : ℚ → ℚ → ℚ) (regular signed : Sheet) (k : ℕ)
    (hadd : ExactOnDyadics add) (hk : k ≤ 1022)
    (hin : ∀ g ∈ groupsOf regular signed, g ∉ inheritedNames)
    (hq : ∀ row ∈ regular.tail ++ signed.tail, readsDyadic 0 (cellAt row 9) = true)
    (hv : ∀ row ∈ regular.tail ++ signed.tail, flaggedSigned row = false →
      readsDyadic k (cellAt row 10) = true)
    (hqb : ((regular.tail ++ signed.tail).map quantityOwned).sum ≤ 2 ^ 53)
    (hvb : (((regular.tail ++ signed.tail).filter fun row => !flaggedSigned row).map
      rowTotalValue).sum * 2 ^ k ≤ 2 ^ 53) :
    (∀ raw imp old, updateCollectionSummary add ⟨raw, imp, some regular, some signed, old⟩ =
      some ⟨raw, imp, some regular, some signed, some (summaryRows add regular signed)⟩) ∧
    summaryRows add regular signed =
      summaryHeader :: (objectEntries (totalsBySetOf add regular signed)).map groupRow ++
        [[.str "Grand Total", .num (totalQuantity add (totalsBySetOf add regular signed)),
          .num (totalValue add (totalsBySetOf add regular signed))]] ∧
    totalQuantity add (totalsBySetOf add regular signed) =
      ((objectEntries (totalsBySetOf add regular signed)).map fun e => e.2.quantity).sum ∧
    totalQuantity add (totalsBySetOf add regular signed) =
      (regular.tail.map quantityOwned).sum + (signed.tail.map quantityOwned).sum ∧
    totalValue add (totalsBySetOf add regular signed) =
      ((objectEntries (totalsBySetOf add regular signed)).map fun e => e.2.value).sum ∧
    totalValue add (totalsBySetOf add regular signed) =
      (((regular.tail ++ signed.tail).filter fun row => !flaggedSigned row).map
        rowTotalValue).sum ∧
    ((∀ row ∈ regular.tail, flaggedSigned row = false) →
      (∀ row ∈ signed.tail, flaggedSigned row = true) →
      totalValue add (totalsBySetOf add regular signed) =
        (regular.tail.map rowTotalValue).sum) ∧
    ((∀ q, numberOrZero (.num q) = q) ∧ numberOrZero (.str "") = 0 ∧
      numberOrZero (.str "abc") = 0 ∧ numberOrZero (.str " 12 ") = 12) := by
  have hpow : (2 : ℚ) ^ k ≠ 0 := pow_ne_zero k (by norm_num)
  have hin2 : ∀ r ∈ getData regular ++ getData signed, toStr r.set ∉ inheritedNames := by
    intro r hr
    apply hin
    rw [← getData_groups]
    exact List.mem_map_of_mem (fun r => toStr r.set) hr
  have hsq : ((getData regular ++ getData signed).map fun r => r.quantity).sum =
      ((regular.tail ++ signed.tail).map quantityOwned).sum := by
    rw [List.map_append, List.map_append, getData_quantity, getData_quantity]
  have hsv : ((getData regular ++ getData signed).map fun r =>
      if r.signed then (0 : ℚ) else r.totalValue).sum =
      (((regular.tail ++ signed.tail).filter fun row => !flaggedSigned row).map
        rowTotalValue).sum := by
    rw [sum_unsigned, List.filter_append, List.map_append, getData_unsigned_value,
      getData_unsigned_value, List.filter_append, List.map_append]
  have hsv2 : ((getData regular ++ getData signed).map fun r =>
      (if r.signed then (0 : ℚ) else r.totalValue) * 2 ^ k).sum =
      (((regular.tail ++ signed.tail).filter fun row => !flaggedSigned row).map
        rowTotalValue).sum * 2 ^ k := by
    rw [List.sum_map_mul_right, hsv]
  obtain ⟨_, hnatQ, hsumQ⟩ := sum_foldl add (fun t => t.quantity) (fun r => r.quantity) rfl
    (getData regular ++ getData signed) hin2
    (by
      intro r hr
      obtain ⟨row, hrow, _, _, hrq, _⟩ := mem_getData regular signed r hr
      obtain ⟨n, hn⟩ := readsNatural_spec _ (hq row hrow)
      exact ⟨n, hrq.trans hn⟩)
    (by
      intro r _ t a n ha hn hle
      have ha2 : t.quantity = a := ha
      have hn2 : r.quantity = n := hn
      show add t.quantity r.quantity = _
      rw [ha2, hn2]
      exact exact_on_naturals add hadd a n hle)
    [] List.nodup_nil (by simp) (by rw [hsq]; simpa using hqb)
  obtain ⟨_, hnatV, hsumV⟩ := sum_foldl add (fun t => t.value * 2 ^ k)
    (fun r => (if r.signed then (0 : ℚ) else r.totalValue) * 2 ^ k) (zero_mul _)
    (getData regular ++ getData signed) hin2
    (by
      intro r hr
      obtain ⟨row, hrow, _, hrs, _, hrv⟩ := mem_getData regular signed r hr
      by_cases hs : r.signed = true
      · exact ⟨0, by simp [hs]⟩
      · have hs2 : r.signed = false := by simpa using hs
        obtain ⟨n, hn⟩ := readsDyadic_spec k _ (hv row hrow (hrs ▸ hs2))
        refine ⟨n, ?_⟩
        show (if r.signed = true then (0 : ℚ) else r.totalValue) * 2 ^ k = n
        rw [if_neg hs, hrv]
        exact hn)
    (by
      intro r _ t a n ha hn hle
      have ha2 : t.value * 2 ^ k = a := ha
      have hn2 : (if r.signed = true then (0 : ℚ) else r.totalValue) * 2 ^ k = n := hn
      show (if r.signed = true then t.value else add t.value r.totalValue) * 2 ^ k = _
      by_cases hs : r.signed = true
      · rw [if_pos hs, zero_mul] at hn2
        have hn0 : n = 0 := by exact_mod_cast hn2.symm
        subst hn0
        rw [if_pos hs, ha2]
        simp
      · rw [if_neg hs] at hn2
        rw [if_neg hs, eq_div_of_mul_eq hpow ha2, eq_div_of_mul_eq hpow hn2,
          hadd k a n hk hle, div_mul_cancel₀ _ hpow])
    [] List.nodup_nil (by simp) (by rw [hsv2]; simpa using hvb)
  simp only [List.map_nil, List.sum_nil, zero_add] at hsumQ hsumV
  rw [hsq] at hsumQ
  rw [hsv2] at hsumV
  obtain ⟨hq1, hq2⟩ := total_exact add hadd 0 (by norm_num) (fun t => t.quantity)
    (totalsBySetOf add regular signed)
    (fun e he => (hnatQ e he).imp fun n hn => by simpa using hn)
    (by simp only [pow_zero, mul_one]; rw [totalsBySetOf, hsumQ]; exact hqb)
  obtain ⟨hv1, hv2⟩ := total_exact add hadd k hk (fun t => t.value)
    (totalsBySetOf add regular signed) hnatV (by rw [totalsBySetOf, hsumV]; exact hvb)
  have hQ : totalQuantity add (totalsBySetOf add regular signed) =
      (regular.tail.map quantityOwned).sum + (signed.tail.map quantityOwned).sum := by
    unfold totalQuantity
    rw [hq1, hq2, totalsBySetOf, hsumQ, List.map_append, List.sum_append]
  have hV : totalValue add (totalsBySetOf add regular signed) =
      (((regular.tail ++ signed.tail).filter fun row => !flaggedSigned row).map
        rowTotalValue).sum := by
    unfold totalValue
    rw [hv1, hv2]
    have h3 : ((totalsBySetOf add regular signed).map fun e => e.2.value * 2 ^ k).sum =
        (((regular.tail ++ signed.tail).filter fun row => !flaggedSigned row).map
          rowTotalValue).sum * 2 ^ k := hsumV
    rw [List.sum_map_mul_right] at h3
    exact mul_right_cancel₀ hpow h3
  refine ⟨fun _ _ _ => rfl, rfl, hq1, hQ, hv1, hV, ?_, ?_⟩
  · intro hr hs
    rw [hV, List.filter_append]
    have h1 : (regular.tail.filter fun row => !flaggedSigned row) = regular.tail := by
      rw [List.filter_eq_self]
      intro row hrow
      simp [hr row hrow]
    have h2 : (signed.tail.filter fun row => !flaggedSigned row) = [] := by
      rw [List.filter_eq_nil_iff]
      intro row hrow
      simp [hs row hrow]
    rw [h1, h2, List.append_nil]
  · refine ⟨fun q => numberOrZero_of_num _ q rfl, by decide!, by decide!, by decide!⟩

/-- The ledgers with total values 12.5, 0.75 and 4.25 (a text) in the
Unsigned ledger and groups B, A in the Signed ledger, under the addition
without rounding and in quarters (`k = 2`): grand-total quantity 13, the sum
over all rows, and grand-total value 17.5, the sum over the rows of the
Unsigned ledger. -/
theorem summary_grand_totals_witness :
    ExactOnDyadics exactAdd ∧
    totalQuantity exactAdd (totalsBySetOf exactAdd quartersRegular orderSigned) =
      (quartersRegular.tail.map quantityOwned).sum + (orderSigned.tail.map quantityOwned).sum ∧
    (quartersRegular.tail.map quantityOwned).sum + (orderSigned.tail.map quantityOwned).sum =
      13 ∧
    totalValue exactAdd (totalsBySetOf exactAdd quartersRegular orderSigned) =
      (quartersRegular.tail.map rowTotalValue).sum ∧
    (quartersRegular.tail.map rowTotalValue).sum = 35 / 2 :=
  have hadd : ExactOnDyadics exactAdd := fun k a b _ _ => by
    simp only [exactAdd]; push_cast; ring
  have h := summary_grand_totals exactAdd quartersRegular orderSigned 2 hadd (by decide)
    (by decide) (by decide!) (by decide!) (by decide!) (by decide!)
  ⟨hadd, h.2.2.2.1, by decide!, h.2.2.2.2.2.2.1 (by decide) (by decide), by decide!⟩

/-- C12 (counterexample). With one data row whose total value is 5 and whose
Set cell reads `constructor`, no group is created: the summary is its header
row and a grand-total row of quantity 0 and value 0, whatever the addition,
where the quantities owned sum to 2 and the total values to 5.  And with the
three total values `0.1`, `0.3` and `0.2` in one group, the exact sum is no
double, so that the grand-total value, which is one, differs from it. -/
theorem summary_totals_counterexample :
    ((∀ add : ℚ → ℚ → ℚ, summaryRows add inheritedRegular [ledgerHeader] =
        [summaryHeader, [.str "Grand Total", .num 0, .num 0]]) ∧
      (inheritedRegular.tail.map quantityOwned).sum +
        (([ledgerHeader] : Sheet).tail.map quantityOwned).sum = 2 ∧
      (inheritedRegular.tail.map rowTotalValue).sum = 5) ∧
    ((∀ row ∈ roundingRegular.tail, fitsMantissa (rowTotalValue row) = true) ∧
      fitsMantissa (roundingRegular.tail.map rowTotalValue).sum = false ∧
      ∀ add : ℚ → ℚ → ℚ, (∀ x y, fitsMantissa (add x y) = true) →
        totalValue add (totalsBySetOf add roundingRegular [ledgerHeader]) ≠
          (roundingRegular.tail.map rowTotalValue).sum) := by
  have hsum : fitsMantissa (roundingRegular.tail.map rowTotalValue).sum = false := by decide!
  refine ⟨⟨fun add => rfl, by decide!, by decide!⟩, by decide!, hsum, ?_⟩
  intro add hfit heq
  have hshape : totalValue add (totalsBySetOf add roundingRegular [ledgerHeader]) =
      add 0 (add (add (add 0 (rowTotalValue (rowAt roundingRegular 1)))
        (rowTotalValue (rowAt roundingRegular 2))) (rowTotalValue (rowAt roundingRegular 3))) :=
    rfl
  have h := hfit 0 (add (add (add 0 (rowTotalValue (rowAt roundingRegular 1)))
    (rowTotalValue (rowAt roundingRegular 2))) (rowTotalValue (rowAt roundingRegular 3)))
  rw [← hshape, heq, hsum] at h
  exact absurd h (by decide)


/-! ## Collection summary: the group rows -/

theorem mem_firstSeen (ks : List String) (k : String) : k ∈ firstSeen ks ↔ k ∈ ks := by
  induction ks with
  | nil => simp [firstSeen]
  | cons a ks ih =>
    simp only [firstSeen, List.mem_cons, List.mem_filter, ih, decide_eq_true_eq]
    constructor
    · rintro (h | ⟨h, _⟩)
      · exact Or.inl h
      · exact Or.inr h
    · intro h
      by_cases e : k = a
      · exact Or.inl e
      · rcases h with h | h
        · exact Or.inl h
        · exact Or.inr ⟨h, e⟩

theorem nodup_firstSeen (ks : List String) : (firstSeen ks).Nodup := by
  induction ks with
  | nil => simp [firstSeen]
  | cons a ks ih =>
    simp only [firstSeen, List.nodup_cons, List.mem_filter, decide_eq_true_eq]
    exact ⟨fun h => h.2 rfl, ih.filter _⟩

theorem foldl_seenStep (ks : List String) :
    ∀ acc : List String,
      ks.foldl seenStep acc = acc ++ (firstSeen ks).filter fun x => decide (x ∉ acc) := by
  induction ks with
  | nil => intro acc; simp [firstSeen]
  | cons k ks ih =>
    intro acc
    rw [List.foldl_cons, ih]
    unfold seenStep
    by_cases h : k ∈ acc
    · rw [if_pos h]
      congr 1
      simp only [firstSeen, List.filter_cons, h, not_true_eq_false, decide_False,
        Bool.false_eq_true, if_false, List.filter_filter]
      apply List.filter_congr
      intro x _
      by_cases hx : x ∈ acc
      · simp [hx]
      · have : x ≠ k := fun e => hx (e ▸ h)
        simp [hx, this]
    · rw [if_neg h, List.append_assoc]
      congr 1
      simp only [firstSeen, List.filter_cons, h, not_false_eq_true, decide_True, if_true,
        List.singleton_append, List.filter_filter]
      congr 1
      apply List.filter_congr
      intro x _
      by_cases hx : x ∈ acc
      · simp [hx]
      · by_cases e : x = k
        · simp [e]
        · simp [hx, e]

theorem keys_foldl (add : ℚ → ℚ → ℚ) (rows : List LedgerEntry)
    (hin : ∀ r ∈ rows, toStr r.set ∉ inheritedNames) :
    ∀ obj : TotalsBySet,
      (rows.foldl (addToTotals add) obj).map Prod.fst =
        (rows.map fun r => toStr r.set).foldl seenStep (obj.map Prod.fst) := by
  induction rows with
  | nil => intro obj; rfl
  | cons row rows ih =>
    intro obj
    rw [List.foldl_cons, ih (fun r hr => hin r (List.mem_cons_of_mem _ hr)),
      keys_addToTotals add obj row (hin row (List.mem_cons_self _ _))]
    rfl

theorem keys_totalsBySetOf (add : ℚ → ℚ → ℚ) (regular signed : Sheet)
    (hin : ∀ k ∈ groupsOf regular signed, k ∉ inheritedNames) :
    (totalsBySetOf add regular signed).map Prod.fst = firstSeen (groupsOf regular signed) := by
  unfold totalsBySetOf
  rw [keys_foldl, getData_groups, foldl_seenStep]
  · simp
  · intro r hr
    apply hin
    rw [← getData_groups]
    exact List.mem_map_of_mem (fun r => toStr r.set) hr

theorem groupKeys_eq (add : ℚ → ℚ → ℚ) (regular signed : Sheet)
    (hin : ∀ k ∈ groupsOf regular signed, k ∉ inheritedNames) :
    groupKeys add regular signed =
      (((totalsBySetOf add regular signed).filter fun e => isArrayIndex e.1).insertionSort
          (fun a b => indexValue a.1 ≤ indexValue b.1)).map Prod.fst ++
        (firstSeen (groupsOf regular signed)).filter fun k => !isArrayIndex k := by
  unfold groupKeys objectEntries
  rw [List.map_append, ← keys_totalsBySetOf add regular signed hin, List.filter_map]
  rfl

theorem indexKeys_perm (add : ℚ → ℚ → ℚ) (regular signed : Sheet)
    (hin : ∀ k ∈ groupsOf regular signed, k ∉ inheritedNames) :
    ((((totalsBySetOf add regular signed).filter fun e => isArrayIndex e.1).insertionSort
      (fun a b => indexValue a.1 ≤ indexValue b.1)).map Prod.fst).Perm
      ((firstSeen (groupsOf regular signed)).filter isArrayIndex) := by
  rw [← keys_totalsBySetOf add regular signed hin, List.filter_map]
  exact (List.perm_insertionSort _ _).map _

/-- C13 (as amended). A Set cell that reads as an inherited property name
aside, the summary is its header row, one row per distinct group of the data
rows of the two ledgers, and one grand-total row.  The group rows whose group
is an array index (the decimal form of an integer from 0 to 4294967294) come
first, in ascending numeric order; the other group rows follow, in the order
in which their groups are first encountered when the Unsigned ledger and then
the Signed ledger are scanned.  When no group is an array index, all group
rows are in the order of first encounter. -/
theorem summary_group_rows_order (add : ℚ → ℚ → ℚ) (regular signed : Sheet)
    (hin : ∀ k ∈ groupsOf regular signed, k ∉ inheritedNames) :
    summaryRows add regular signed =
      summaryHeader :: (objectEntries (totalsBySetOf add regular signed)).map groupRow ++
        [grandTotalRow add (totalsBySetOf add regular signed)] ∧
    ((objectEntries (totalsBySetOf add regular signed)).map groupRow).map
        (fun row => cellAt row 0) = (groupKeys add regular signed).map Cell.str ∧
    (groupKeys add regular signed).Nodup ∧
    (∀ k, k ∈ groupKeys add regular signed ↔ k ∈ groupsOf regular signed) ∧
    (∃ indexKeys : List String,
      groupKeys add regular signed =
        indexKeys ++ (firstSeen (groupsOf regular signed)).filter (fun k => !isArrayIndex k) ∧
      indexKeys.Perm ((firstSeen (groupsOf regular signed)).filter isArrayIndex) ∧
      indexKeys.Pairwise fun a b => indexValue a ≤ indexValue b) ∧
    ((∀ k ∈ groupsOf regular signed, isArrayIndex k = false) →
      groupKeys add regular signed = firstSeen (groupsOf regular signed)) := by
  have hkeys := keys_totalsBySetOf add regular signed hin
  have hperm : (groupKeys add regular signed).Perm (firstSeen (groupsOf regular signed)) := by
    rw [← hkeys]
    exact (objectEntries_perm _).map _
  refine ⟨rfl, ?_, hperm.nodup_iff.2 (nodup_firstSeen _), ?_, ?_, ?_⟩
  · unfold groupKeys
    rw [List.map_map, List.map_map]
    rfl
  · intro k
    rw [hperm.mem_iff, mem_firstSeen]
  · refine ⟨_, groupKeys_eq add regular signed hin, ?_, ?_⟩
    · exact indexKeys_perm add regular signed hin
    · rw [List.pairwise_map]
      haveI : IsTotal (String × Totals) (fun a b => indexValue a.1 ≤ indexValue b.1) :=
        ⟨fun a b => le_total _ _⟩
      haveI : IsTrans (String × Totals) (fun a b => indexValue a.1 ≤ indexValue b.1) :=
        ⟨fun a b c hab hbc => le_trans hab hbc⟩
      exact List.sorted_insertionSort _ _
  · intro h
    rw [groupKeys_eq add regular signed hin]
    have h1 : ((totalsBySetOf add regular signed).filter fun e => isArrayIndex e.1) = [] := by
      rw [List.filter_eq_nil_iff]
      intro e he
      have hk : e.1 ∈ (totalsBySetOf add regular signed).map Prod.fst :=
        List.mem_map_of_mem _ he
      rw [hkeys, mem_firstSeen] at hk
      simp [h e.1 hk]
    have h2 : ((firstSeen (groupsOf regular signed)).filter fun k => !isArrayIndex k) =
        firstSeen (groupsOf regular signed) := by
      rw [List.filter_eq_self]
      intro k hk
      rw [mem_firstSeen] at hk
      simp [h k hk]
    rw [h1, h2]
    rfl

/-- The ledgers with groups B, 7, B and B, A: no group is an inherited
property name; the group row of the array index 7 comes first, then those of
B and A in the order of first encounter. -/
theorem summary_group_rows_witness :
    (∀ k ∈ groupsOf orderRegular orderSigned, k ∉ inheritedNames) ∧
    (groupKeys exactAdd orderRegular orderSigned).Nodup ∧
    (∀ k, k ∈ groupKeys exactAdd orderRegular orderSigned ↔
      k ∈ groupsOf orderRegular orderSigned) ∧
    ∃ indexKeys : List String,
      groupKeys exactAdd orderRegular orderSigned =
        indexKeys ++
          (firstSeen (groupsOf orderRegular orderSigned)).filter (fun k => !isArrayIndex k) ∧
      indexKeys.Perm ((firstSeen (groupsOf orderRegular orderSigned)).filter isArrayIndex) ∧
      indexKeys.Pairwise fun a b => indexValue a ≤ indexValue b :=
  have h := summary_group_rows_order exactAdd orderRegular orderSigned (by decide)
  ⟨by decide, h.2.2.1, h.2.2.2.1, h.2.2.2.2.1⟩

/-- C13 (counterexample). In ledgers whose groups are first encountered in
the order B, 7, A, none of them an inherited property name, the group rows of
the summary are in the order 7, B, A, whatever the addition. -/
theorem summary_order_counterexample :
    firstSeen (groupsOf orderRegular orderSigned) = ["B", "7", "A"] ∧
      (∀ k ∈ groupsOf orderRegular orderSigned, k ∉ inheritedNames) ∧
      (∀ add : ℚ → ℚ → ℚ, groupKeys add orderRegular orderSigned = ["7", "B", "A"]) ∧
      (∀ add : ℚ → ℚ → ℚ,
        groupKeys add orderRegular orderSigned ≠ firstSeen (groupsOf orderRegular orderSigned)) ∧
      summaryRows exactAdd orderRegular orderSigned =
        [summaryHeader, [.str "7", .num 1, .num 3], [.str "B", .num 7, .num 13],
          [.str "A", .num 6, .num 0], [.str "Grand Total", .num 14, .num 16]] := by
  have h1 : firstSeen (groupsOf orderRegular orderSigned) = ["B", "7", "A"] := by decide
  have hin : ∀ k ∈ groupsOf orderRegular orderSigned, k ∉ inheritedNames := by decide
  have h2 : ∀ add : ℚ → ℚ → ℚ, groupKeys add orderRegular orderSigned = ["7", "B", "A"] := by
    intro add
    have hp := indexKeys_perm add orderRegular orderSigned hin
    rw [h1] at hp
    have hidx : (["B", "7", "A"].filter isArrayIndex) = ["7"] := by decide
    rw [hidx] at hp
    rw [groupKeys_eq add orderRegular orderSigned hin, List.perm_singleton.1 hp, h1]
    decide
  refine ⟨h1, hin, h2, ?_, by decide!⟩
  intro add h
  rw [h1, h2 add] at h
  exact absurd h (by decide)


end ArtCardInventory
